import Mathlib

/-!
Shallow embedding of the hybrid recommendation engine in
`server/services/ChatbotService.js` (class `RecommendationEngine`),
together with proofs about the properties its specification states.

JavaScript numbers are modelled as real numbers (`ℝ`); timestamps are
milliseconds since the epoch, durations are seconds.  JavaScript's stable
`Array.prototype.sort(cmp)` with comparator `(a, b) => b.score - a.score`
is modelled as the stable `List.mergeSort` with the total boolean relation
`fun a b => decide (b.score ≤ a.score)` (an element goes first exactly when
its score is strictly larger, and ties keep the original order — the
behaviour of a stable sort under that comparator).
-/

namespace ECommerce

/-- One entry of `user.behaviorData.browsingHistory` (models/User.js):
a product id, an event timestamp (ms) and a viewing duration in seconds.
`addToBrowsingHistory(productId, duration = 0, …)` defaults a missing
duration to `0`, so stored events always carry a numeric duration. -/
structure Interaction where
  productId : String
  timestamp : ℝ
  duration : ℝ

/-- An active user as read by `loadUserItemMatrix`: its id and its stored
browsing history. -/
structure UserRow where
  id : String
  browsingHistory : List Interaction

/-- `calculateRecencyScore(timestamp)` (ChatbotService.js:996–1000):
`daysDiff = (now - timestamp) / (1000*60*60*24)`, result
`exp(-daysDiff / 30)`.  `now` (the build instant) is an explicit
parameter here. -/
noncomputable def calculateRecencyScore (now timestamp : ℝ) : ℝ :=
  Real.exp (-((now - timestamp) / (1000 * 60 * 60 * 24)) / 30)

/-- The interaction score computed inside the matrix-fill loop
(ChatbotService.js:616–620): `recencyScore * 0.7 + durationScore * 0.3`
with `durationScore = Math.min(duration / 60, 10) / 10`. -/
noncomputable def interactionScore (now : ℝ) (e : Interaction) : ℝ :=
  calculateRecencyScore now e.timestamp * 0.7 + min (e.duration / 60) 10 / 10 * 0.3

/-- The row-filling loop of `loadUserItemMatrix` (ChatbotService.js:609–623)
for one user: starting from a row of zeroes of width `productIds.length`,
each interaction whose product id occurs in `productIds`
(`indexOf(...) !== -1`, first occurrence) updates that cell to
`Math.max(cell, interactionScore)`. -/
noncomputable def fillRow (now : ℝ) (productIds : List String)
    (history : List Interaction) : List ℝ :=
  history.foldl (fun row e =>
    match productIds.indexOf? e.productId with
    | some j => row.set j (max (row.getD j 0) (interactionScore now e))
    | none => row)
    (List.replicate productIds.length 0)

/-- The user-item interaction matrix snapshot
(`this.userItemMatrix`, ChatbotService.js:624–628). -/
structure UserItemMatrix where
  matrix : List (List ℝ)
  userIds : List String
  productIds : List String

/-- `loadUserItemMatrix` (ChatbotService.js:597–635): one row per active
user, one column per active product. -/
noncomputable def loadUserItemMatrix (now : ℝ) (users : List UserRow)
    (productIds : List String) : UserItemMatrix where
  matrix := users.map (fun u => fillRow now productIds u.browsingHistory)
  userIds := users.map (·.id)
  productIds := productIds

/-- The L2 magnitude computed inside `cosineSimilarity`
(ChatbotService.js:1004–1005): `Math.sqrt(v.reduce((s, x) => s + x*x, 0))`. -/
noncomputable def l2norm (v : List ℝ) : ℝ :=
  Real.sqrt (v.foldl (fun sum x => sum + x * x) 0)

/-- The dot product of `cosineSimilarity` (ChatbotService.js:1003):
`vectorA.reduce((sum, a, i) => sum + a * vectorB[i], 0)`, which for
equal-length vectors walks the two lists in lockstep. -/
noncomputable def dotProduct (a b : List ℝ) : ℝ :=
  (a.zip b).foldl (fun sum p => sum + p.1 * p.2) 0

/-- `cosineSimilarity(vectorA, vectorB)` (ChatbotService.js:1002–1009):
`0` when either magnitude is zero, else `dot / (|a| * |b|)`. -/
noncomputable def cosineSimilarity (a b : List ℝ) : ℝ :=
  if l2norm a = 0 ∨ l2norm b = 0 then 0
  else dotProduct a b / (l2norm a * l2norm b)

lemma foldl_add_shift (f : α → ℝ) (l : List α) (c : ℝ) :
    l.foldl (fun sum x => sum + f x) c = c + l.foldl (fun sum x => sum + f x) 0 := by
  induction l generalizing c with
  | nil => simp
  | cons x xs ih =>
    simp only [List.foldl_cons]
    rw [ih (c + f x), ih (0 + f x)]
    ring

lemma dotProduct_cons (x y : ℝ) (xs ys : List ℝ) :
    dotProduct (x :: xs) (y :: ys) = x * y + dotProduct xs ys := by
  simp only [dotProduct, List.zip_cons_cons, List.foldl_cons]
  rw [foldl_add_shift (fun p => p.1 * p.2) (xs.zip ys) (0 + x * y)]
  ring

lemma dotProduct_comm (a b : List ℝ) (h : a.length = b.length) :
    dotProduct a b = dotProduct b a := by
  induction a generalizing b with
  | nil =>
    cases b with
    | nil => rfl
    | cons y ys => simp at h
  | cons x xs ih =>
    cases b with
    | nil => simp at h
    | cons y ys =>
      simp only [List.length_cons, Nat.succ.injEq] at h
      rw [dotProduct_cons, dotProduct_cons, ih ys h, mul_comm]

/-- Claim C7: for every pair of equal-length vectors `a` and `b`,
`cosineSimilarity a b = cosineSimilarity b a`; and whenever either vector
has zero L2 norm the result is exactly `0` (the guard returns `0` before
any division, so no NaN / division error can arise — in this real-number
model the function is total and the zero-norm case is exactly `0`). -/
theorem cosineSimilarity_symm_and_zero_norm :
    (∀ a b : List ℝ, a.length = b.length → cosineSimilarity a b = cosineSimilarity b a) ∧
    (∀ a b : List ℝ, l2norm a = 0 ∨ l2norm b = 0 → cosineSimilarity a b = 0) := by
  constructor
  · intro a b h
    by_cases hz : l2norm a = 0 ∨ l2norm b = 0
    · rw [cosineSimilarity, cosineSimilarity, if_pos hz, if_pos hz.symm]
    · rw [cosineSimilarity, cosineSimilarity, if_neg hz,
        if_neg (fun hc => hz hc.symm), dotProduct_comm a b h, mul_comm]
  · intro a b h
    rw [cosineSimilarity, if_pos h]

/-- Witness for C7 at concrete inputs: `[1,2]` against `[3,4]` for the
symmetry part, and `[0]` (zero norm) against `[5]` for the zero case. -/
theorem cosineSimilarity_symm_and_zero_norm_witness :
    cosineSimilarity [1, 2] [3, 4] = cosineSimilarity [3, 4] [1, 2] ∧
    (l2norm [0] = 0 ∨ l2norm [5] = 0) ∧ cosineSimilarity [0] [5] = 0 := by
  refine ⟨cosineSimilarity_symm_and_zero_norm.1 [1, 2] [3, 4] (by simp), ?_, ?_⟩
  · exact Or.inl (by simp [l2norm])
  · exact cosineSimilarity_symm_and_zero_norm.2 [0] [5] (Or.inl (by simp [l2norm]))

lemma calculateRecencyScore_pos (now t : ℝ) : 0 < calculateRecencyScore now t :=
  Real.exp_pos _

lemma calculateRecencyScore_le_one (now t : ℝ) (h : t ≤ now) :
    calculateRecencyScore now t ≤ 1 := by
  rw [calculateRecencyScore, Real.exp_le_one_iff]
  have h0 : 0 ≤ (now - t) / (1000 * 60 * 60 * 24) :=
    div_nonneg (by linarith) (by norm_num)
  linarith

lemma durationScore_le_one (d : ℝ) : min (d / 60) 10 / 10 ≤ 1 := by
  have := min_le_right (d / 60) 10
  linarith

lemma interactionScore_le_one (now : ℝ) (e : Interaction) (h : e.timestamp ≤ now) :
    interactionScore now e ≤ 1 := by
  have hr := calculateRecencyScore_le_one now e.timestamp h
  have hd := durationScore_le_one e.duration
  rw [interactionScore]
  linarith

lemma interactionScore_nonneg (now : ℝ) (e : Interaction) (h : 0 ≤ e.duration) :
    0 ≤ interactionScore now e := by
  have hr := (calculateRecencyScore_pos now e.timestamp).le
  have hd : (0 : ℝ) ≤ min (e.duration / 60) 10 / 10 := by
    have h60 : (0 : ℝ) ≤ e.duration / 60 := div_nonneg h (by norm_num)
    have : (0 : ℝ) ≤ min (e.duration / 60) 10 := le_min h60 (by norm_num)
    linarith
  rw [interactionScore]
  nlinarith

lemma getD_zero_bounds {row : List ℝ} (hrow : ∀ x ∈ row, 0 ≤ x ∧ x ≤ 1) (j : ℕ) :
    0 ≤ row.getD j 0 ∧ row.getD j 0 ≤ 1 := by
  by_cases hj : j < row.length
  · rw [List.getD_eq_getElem row 0 hj]
    exact hrow _ (List.getElem_mem hj)
  · rw [List.getD_eq_default row 0 (Nat.le_of_not_lt hj)]
    exact ⟨le_refl 0, zero_le_one⟩

lemma fillRow_foldl_bounds (now : ℝ) (productIds : List String)
    (hist : List Interaction) (row : List ℝ)
    (hts : ∀ e ∈ hist, e.timestamp ≤ now)
    (hrow : ∀ x ∈ row, 0 ≤ x ∧ x ≤ 1) :
    ∀ x ∈ hist.foldl (fun row e =>
        match productIds.indexOf? e.productId with
        | some j => row.set j (max (row.getD j 0) (interactionScore now e))
        | none => row) row, 0 ≤ x ∧ x ≤ 1 := by
  induction hist generalizing row with
  | nil => simpa using hrow
  | cons e hist ih =>
    simp only [List.foldl_cons]
    apply ih
    · intro e' he'
      exact hts e' (List.mem_cons_of_mem _ he')
    · cases hidx : productIds.indexOf? e.productId with
      | none => simpa [hidx] using hrow
      | some j =>
        simp only [hidx]
        intro x hx
        rcases List.mem_or_eq_of_mem_set hx with hmem | hval
        · exact hrow x hmem
        · subst hval
          have hold := getD_zero_bounds hrow j
          refine ⟨le_trans hold.1 (le_max_left _ _), ?_⟩
          exact max_le hold.2
            (interactionScore_le_one now e (hts e (List.mem_cons_self e hist)))

/-- Claim C9: every interaction score placed in the matrix built by
`loadUserItemMatrix` lies in the closed interval `[0, 1]`, provided every
stored event's timestamp is at or before the build instant.  (No
assumption on durations is needed: cells start at `0` and only ever take
`max` with a score ≤ 1, so a negative duration cannot push a cell below
`0` or above `1`.) -/
theorem loadUserItemMatrix_cells_in_unit_interval
    (now : ℝ) (users : List UserRow) (productIds : List String)
    (hts : ∀ u ∈ users, ∀ e ∈ u.browsingHistory, e.timestamp ≤ now) :
    ∀ row ∈ (loadUserItemMatrix now users productIds).matrix,
      ∀ x ∈ row, 0 ≤ x ∧ x ≤ 1 := by
  intro row hrow
  rw [loadUserItemMatrix] at hrow
  simp only [List.mem_map] at hrow
  obtain ⟨u, hu, rfl⟩ := hrow
  rw [fillRow]
  apply fillRow_foldl_bounds now productIds u.browsingHistory _ (hts u hu)
  intro x hx
  rw [List.eq_of_mem_replicate hx]
  exact ⟨le_refl 0, zero_le_one⟩

/-- Witness for C9: one user with one view of product `"P1"` at the build
instant (`now = 0`); the single matrix cell lies in `[0, 1]`. -/
theorem loadUserItemMatrix_cells_in_unit_interval_witness :
    0 ≤ ((loadUserItemMatrix 0 [⟨"U", [⟨"P1", 0, 120⟩]⟩] ["P1"]).matrix.getD 0
      []).getD 0 0 ∧
    ((loadUserItemMatrix 0 [⟨"U", [⟨"P1", 0, 120⟩]⟩] ["P1"]).matrix.getD 0
      []).getD 0 0 ≤ 1 := by
  have h := loadUserItemMatrix_cells_in_unit_interval 0
    [⟨"U", [⟨"P1", 0, 120⟩]⟩] ["P1"] ?hts
  case hts =>
    intro u hu e he
    simp only [List.mem_singleton] at hu
    subst hu
    simp only [List.mem_singleton] at he
    subst he
    exact le_refl 0
  have hrowval : (loadUserItemMatrix 0 [⟨"U", [⟨"P1", 0, 120⟩]⟩]
      ["P1"]).matrix.getD 0 [] = fillRow 0 ["P1"] [⟨"P1", 0, 120⟩] := by
    rw [loadUserItemMatrix]
    simp
  have hrow0 : (loadUserItemMatrix 0 [⟨"U", [⟨"P1", 0, 120⟩]⟩]
      ["P1"]).matrix.getD 0 [] ∈
      (loadUserItemMatrix 0 [⟨"U", [⟨"P1", 0, 120⟩]⟩] ["P1"]).matrix := by
    rw [hrowval, loadUserItemMatrix]
    simp
  have hfill : fillRow 0 ["P1"] [⟨"P1", 0, 120⟩] = [0.76] := by
    simp [fillRow, List.indexOf?, List.findIdx?, interactionScore,
      calculateRecencyScore]
    norm_num [Real.exp_zero]
  apply h _ hrow0
  rw [hrowval, hfill]
  simp

lemma le_foldl_max_init (l : List ℝ) (a : ℝ) : a ≤ l.foldl max a := by
  induction l generalizing a with
  | nil => exact le_refl a
  | cons y ys ih => exact le_trans (le_max_left a y) (ih (max a y))

lemma mem_le_foldl_max (l : List ℝ) (a : ℝ) : ∀ x ∈ l, x ≤ l.foldl max a := by
  induction l generalizing a with
  | nil => simp
  | cons y ys ih =>
    intro x hx
    rcases List.mem_cons.mp hx with rfl | hmem
    · exact le_trans (le_max_right a x) (le_foldl_max_init ys (max a x))
    · exact ih (max a y) x hmem

lemma foldl_max_mem_or_init (l : List ℝ) (a : ℝ) :
    l.foldl max a ∈ l ∨ l.foldl max a = a := by
  induction l generalizing a with
  | nil => exact Or.inr rfl
  | cons y ys ih =>
    rcases ih (max a y) with hmem | heq
    · exact Or.inl (List.mem_cons_of_mem y hmem)
    · rcases max_choice a y with ha | hy
      · exact Or.inr (heq.trans ha)
      · exact Or.inl (List.mem_cons.mpr (Or.inl (heq.trans hy)))

lemma foldl_max_zero_spec (l : List ℝ) (hne : l ≠ [])
    (hnn : ∀ x ∈ l, 0 ≤ x) :
    l.foldl max 0 ∈ l ∧ ∀ x ∈ l, x ≤ l.foldl max 0 := by
  refine ⟨?_, mem_le_foldl_max l 0⟩
  rcases foldl_max_mem_or_init l 0 with hmem | heq
  · exact hmem
  · obtain ⟨y, ys, rfl⟩ := List.exists_cons_of_ne_nil hne
    have h1 : y ≤ (y :: ys).foldl max 0 := mem_le_foldl_max _ 0 y (List.mem_cons_self y ys)
    have h2 : 0 ≤ y := hnn y (List.mem_cons_self y ys)
    have : (y :: ys).foldl max 0 = y := le_antisymm (heq.le.trans h2) h1
    rw [this]
    exact List.mem_cons_self y ys

lemma indexOf?_eq_some_self (pids : List String) (j : ℕ)
    (hj : j < pids.length) (hnd : pids.Nodup) :
    pids.indexOf? pids[j] = some j := by
  rw [List.indexOf?, List.findIdx?_eq_some_iff_getElem]
  refine ⟨hj, by simp, ?_⟩
  intro k hkj
  simp only [beq_iff_eq]
  intro hkeq
  exact absurd ((hnd.getElem_inj_iff).mp hkeq) (Nat.ne_of_lt hkj)

lemma indexOf?_getElem (pids : List String) (a : String) (k : ℕ)
    (h : pids.indexOf? a = some k) : ∃ hk : k < pids.length, pids[k] = a := by
  rw [List.indexOf?, List.findIdx?_eq_some_iff_getElem] at h
  obtain ⟨hk, hkeq, -⟩ := h
  exact ⟨hk, by simpa using hkeq⟩

lemma fillRow_foldl_getD (now : ℝ) (pids : List String) (j : ℕ)
    (hj : j < pids.length) (hnd : pids.Nodup) (hist : List Interaction) :
    ∀ (row : List ℝ), row.length = pids.length →
    (hist.foldl (fun row e =>
        match pids.indexOf? e.productId with
        | some k => row.set k (max (row.getD k 0) (interactionScore now e))
        | none => row) row).getD j 0 =
      (hist.filter (fun e => e.productId == pids.getD j "")).foldl
        (fun acc e => max acc (interactionScore now e)) (row.getD j 0) := by
  induction hist with
  | nil => intro row _; rfl
  | cons e hist ih =>
    intro row hlen
    have hjrow : j < row.length := hlen ▸ hj
    simp only [List.foldl_cons, List.filter_cons]
    by_cases hpid : e.productId = pids.getD j ""
    · have hpid' : e.productId = pids[j] := by
        rwa [List.getD_eq_getElem pids "" hj] at hpid
      have hidx : pids.indexOf? e.productId = some j := by
        rw [hpid']; exact indexOf?_eq_some_self pids j hj hnd
      have hbeq : (e.productId == pids.getD j "") = true := beq_iff_eq.mpr hpid
      rw [if_pos hbeq]
      simp only [hidx, List.foldl_cons]
      rw [ih (row.set j (max (row.getD j 0) (interactionScore now e)))
          (by simp [hlen])]
      congr 1
      rw [List.getD_eq_getElem _ 0 (by simpa using hjrow)]
      simp
    · have hbeq : (e.productId == pids.getD j "") ≠ true := by
        simpa using hpid
      rw [if_neg hbeq]
      cases hidx : pids.indexOf? e.productId with
      | none => simp only [hidx]; exact ih row hlen
      | some k =>
        obtain ⟨hk, hkeq⟩ := indexOf?_getElem pids e.productId k hidx
        have hkj : k ≠ j := by
          intro h
          subst h
          exact hpid ((List.getD_eq_getElem pids "" hj ▸ hkeq).symm)
        simp only [hidx]
        rw [ih (row.set k (max (row.getD k 0) (interactionScore now e)))
            (by simp [hlen])]
        congr 1
        rw [List.getD_eq_getElem _ 0 (by simpa using hjrow),
          List.getD_eq_getElem _ 0 hjrow]
        exact List.getElem_set_ne hkj _

lemma fillRow_getD_eq (now : ℝ) (pids : List String)
    (hist : List Interaction) (j : ℕ) (hj : j < pids.length) (hnd : pids.Nodup) :
    (fillRow now pids hist).getD j 0 =
      (hist.filter (fun e => e.productId == pids.getD j "")).foldl
        (fun acc e => max acc (interactionScore now e)) 0 := by
  rw [fillRow, fillRow_foldl_getD now pids j hj hnd hist
    (List.replicate pids.length 0) (List.length_replicate _ _)]
  congr 1
  simp [List.getD_eq_getElem?_getD, List.getElem?_replicate, hj]

/-- Claim C1: a matrix cell built by `loadUserItemMatrix` equals the
maximum, over the user's stored browsing-history events for that product
(column `j`), of `exp(-days_since_event/30)*0.7 + (min(duration/60,10)/10)*0.3`
— stated as: the cell is one of the event scores and dominates all of
them (this is the maximum of the nonempty score multiset); and a single
view event with timestamp equal to the build time and duration 120
seconds yields a cell value of exactly `0.76`. -/
theorem fillRow_cell_is_max_of_event_scores :
    (∀ (now : ℝ) (pids : List String) (hist : List Interaction) (j : ℕ),
      j < pids.length → pids.Nodup →
      hist.filter (fun e => e.productId == pids.getD j "") ≠ [] →
      (∀ e ∈ hist.filter (fun e => e.productId == pids.getD j ""), 0 ≤ e.duration) →
      (fillRow now pids hist).getD j 0
          ∈ (hist.filter (fun e => e.productId == pids.getD j "")).map
              (interactionScore now) ∧
        ∀ e ∈ hist.filter (fun e => e.productId == pids.getD j ""),
          interactionScore now e ≤ (fillRow now pids hist).getD j 0) ∧
    fillRow 0 ["P1"] [⟨"P1", 0, 120⟩] = [0.76] := by
  constructor
  · intro now pids hist j hj hnd hne hdur
    rw [fillRow_getD_eq now pids hist j hj hnd, ← List.foldl_map]
    have hmapne :
        (hist.filter (fun e => e.productId == pids.getD j "")).map
          (interactionScore now) ≠ [] := by
      simpa using hne
    have hmapnn : ∀ s ∈ (hist.filter (fun e => e.productId == pids.getD j "")).map
        (interactionScore now), 0 ≤ s := by
      intro s hs
      obtain ⟨e, he, rfl⟩ := List.mem_map.mp hs
      exact interactionScore_nonneg now e (hdur e he)
    obtain ⟨hmem, hle⟩ := foldl_max_zero_spec _ hmapne hmapnn
    exact ⟨hmem, fun e he => hle _ (List.mem_map_of_mem _ he)⟩
  · simp [fillRow, List.indexOf?, List.findIdx?, interactionScore,
      calculateRecencyScore]
    norm_num [Real.exp_zero]

/-- Witness for C1 at the spec's end-to-end scenario: one product `"P1"`,
one view event at the build instant with duration 120 s. -/
theorem fillRow_cell_is_max_of_event_scores_witness :
    (0 : ℕ) < (["P1"] : List String).length ∧
    (["P1"] : List String).Nodup ∧
    ([⟨"P1", 0, 120⟩] : List Interaction).filter
      (fun e => e.productId == (["P1"] : List String).getD 0 "") ≠ [] ∧
    ((fillRow 0 ["P1"] [⟨"P1", 0, 120⟩]).getD 0 0
        ∈ (([⟨"P1", 0, 120⟩] : List Interaction).filter
            (fun e => e.productId == (["P1"] : List String).getD 0 "")).map
            (interactionScore 0) ∧
      ∀ e ∈ ([⟨"P1", 0, 120⟩] : List Interaction).filter
          (fun e => e.productId == (["P1"] : List String).getD 0 ""),
        interactionScore 0 e ≤ (fillRow 0 ["P1"] [⟨"P1", 0, 120⟩]).getD 0 0) := by
  refine ⟨by simp, by simp, by simp, ?_⟩
  apply fillRow_cell_is_max_of_event_scores.1 0 ["P1"] [⟨"P1", 0, 120⟩] 0
    (by simp) (by simp) (by simp)
  intro e he
  simp only [List.getD_cons_zero, List.filter_cons, List.filter_nil] at he
  norm_num at he
  subst he
  norm_num

/-- A recommendation candidate as produced by the collaborative, content,
trending and fallback generators: `{ productId, score, type }`. -/
structure Candidate where
  productId : String
  score : ℝ
  type : String

/-- JavaScript's stable `array.sort((a, b) => bScore - aScore)`: an element
precedes another exactly when its score is at least as large, ties keeping
the original order; modelled by the stable `List.mergeSort` under
`fun a b => decide (score b ≤ score a)`. -/
noncomputable def sortByScoreDesc {α : Type} (score : α → ℝ) (l : List α) : List α :=
  l.mergeSort (fun a b => decide (score b ≤ score a))

lemma scoreDesc_trans {α : Type} (score : α → ℝ) :
    ∀ (a b c : α), (fun a b => decide (score b ≤ score a)) a b →
      (fun a b => decide (score b ≤ score a)) b c →
      (fun a b => decide (score b ≤ score a)) a c := by
  intro a b c hab hbc
  simp only [decide_eq_true_eq] at *
  exact le_trans hbc hab

lemma scoreDesc_total {α : Type} (score : α → ℝ) :
    ∀ (a b : α), ((fun a b => decide (score b ≤ score a)) a b ||
      (fun a b => decide (score b ≤ score a)) b a) := by
  intro a b
  simp only [Bool.or_eq_true, decide_eq_true_eq]
  exact (le_total (score b) (score a))

lemma sortByScoreDesc_perm {α : Type} (score : α → ℝ) (l : List α) :
    List.Perm (sortByScoreDesc score l) l :=
  List.mergeSort_perm l _

lemma sortByScoreDesc_sorted {α : Type} (score : α → ℝ) (l : List α) :
    (sortByScoreDesc score l).Pairwise (fun a b => score b ≤ score a) := by
  have h := @List.sorted_mergeSort _ (fun a b => decide (score b ≤ score a))
    (scoreDesc_trans score) (scoreDesc_total score) l
  exact h.imp (fun hab => by simpa using hab)

lemma sortByScoreDesc_pair_stable {α : Type} (score : α → ℝ) (l : List α)
    (a b : α) (h : List.Sublist [a, b] l) (hab : score b ≤ score a) :
    List.Sublist [a, b] (sortByScoreDesc score l) :=
  List.pair_sublist_mergeSort (scoreDesc_trans score) (scoreDesc_total score)
    (by simpa using hab) h

/-- A merged candidate in the hybrid ranker's map
(ChatbotService.js:885–903): accumulated score and the list of source
tags pushed so far. -/
structure Combined where
  productId : String
  score : ℝ
  sources : List String

/-- One step of the `combined` map update (ChatbotService.js:888–901):
if the product is already present, add the weighted score and push the
source tag, otherwise insert a fresh entry.  (A JavaScript `Map` keyed by
`productId` is modelled as an association list in insertion order.) -/
def upsertCombined (m : List Combined) (pid : String) (w : ℝ) (t : String) :
    List Combined :=
  if m.any (fun c => c.productId == pid) then
    m.map (fun c => if c.productId == pid then
      ⟨c.productId, c.score + w, c.sources ++ [t]⟩ else c)
  else m ++ [⟨pid, w, [t]⟩]

/-- The accumulation loop of `combineRecommendations`
(ChatbotService.js:885–903) before sorting. -/
noncomputable def combineAccum (sources : List (List Candidate × ℝ)) :
    List Combined :=
  sources.foldl (fun combined sw =>
    sw.1.foldl (fun combined r =>
      upsertCombined combined r.productId (r.score * sw.2) r.type) combined) []

/-- `combineRecommendations(sources)` (ChatbotService.js:884–907):
accumulate the weighted entries into a map, then sort the values by
accumulated score descending. -/
noncomputable def combineRecommendations (sources : List (List Candidate × ℝ)) :
    List Combined :=
  sortByScoreDesc Combined.score (combineAccum sources)

/-- All weighted contributions of the input lists, flattened in
processing order: candidate `r` of a list with weight `w` contributes
`(r.productId, r.score * w, r.type)`. -/
noncomputable def weightedEntries (sources : List (List Candidate × ℝ)) :
    List Candidate :=
  sources.flatMap (fun sw => sw.1.map (fun r =>
    ⟨r.productId, r.score * sw.2, r.type⟩))

/-- Total weighted score of a product over a flat contribution list. -/
noncomputable def sumScore (pid : String) (cs : List Candidate) : ℝ :=
  ((cs.filter (fun c => c.productId == pid)).map (·.score)).sum

/-- Source tags contributed for a product, in processing order. -/
def tagsFor (pid : String) (cs : List Candidate) : List String :=
  (cs.filter (fun c => c.productId == pid)).map (·.type)

lemma combineAccum_eq_foldl_weightedEntries (sources : List (List Candidate × ℝ)) :
    combineAccum sources = (weightedEntries sources).foldl
      (fun m c => upsertCombined m c.productId c.score c.type) [] := by
  rw [combineAccum, weightedEntries]
  generalize ([] : List Combined) = init
  induction sources generalizing init with
  | nil => rfl
  | cons sw rest ih =>
    simp only [List.foldl_cons, List.flatMap_cons, List.foldl_append]
    rw [ih, List.foldl_map]

lemma sumScore_append_singleton (pid : String) (cs : List Candidate) (c : Candidate) :
    sumScore pid (cs ++ [c]) =
      sumScore pid cs + (if c.productId == pid then c.score else 0) := by
  by_cases h : c.productId == pid
  · simp [sumScore, List.filter_append, List.filter_cons, h]
  · simp [sumScore, List.filter_append, List.filter_cons, h]

lemma tagsFor_append_singleton (pid : String) (cs : List Candidate) (c : Candidate) :
    tagsFor pid (cs ++ [c]) =
      tagsFor pid cs ++ (if c.productId == pid then [c.type] else []) := by
  by_cases h : c.productId == pid
  · simp [tagsFor, List.filter_append, List.filter_cons, h]
  · simp [tagsFor, List.filter_append, List.filter_cons, h]

lemma sumScore_eq_zero_of_not_mem (pid : String) (cs : List Candidate)
    (h : pid ∉ cs.map (·.productId)) : sumScore pid cs = 0 := by
  have hfil : cs.filter (fun c => c.productId == pid) = [] := by
    rw [List.filter_eq_nil_iff]
    intro c hc
    simp only [beq_iff_eq]
    intro heq
    exact h (heq ▸ List.mem_map_of_mem (·.productId) hc)
  simp [sumScore, hfil]

lemma tagsFor_eq_nil_of_not_mem (pid : String) (cs : List Candidate)
    (h : pid ∉ cs.map (·.productId)) : tagsFor pid cs = [] := by
  have hfil : cs.filter (fun c => c.productId == pid) = [] := by
    rw [List.filter_eq_nil_iff]
    intro c hc
    simp only [beq_iff_eq]
    intro heq
    exact h (heq ▸ List.mem_map_of_mem (·.productId) hc)
  simp [tagsFor, hfil]

/-- Characterization of the map-accumulation loop over a flat contribution
list: keys are distinct, each entry carries the total weighted score and
the in-order source tags of its key, and every contributed key is present. -/
lemma foldl_upsertCombined_spec (cs : List Candidate) :
    ((cs.foldl (fun m c => upsertCombined m c.productId c.score c.type) []).map
        (·.productId)).Nodup ∧
    (∀ x ∈ cs.foldl (fun m c => upsertCombined m c.productId c.score c.type) [],
      x.productId ∈ cs.map (·.productId) ∧
      x.score = sumScore x.productId cs ∧
      x.sources = tagsFor x.productId cs) ∧
    (∀ pid ∈ cs.map (·.productId),
      ∃ x ∈ cs.foldl (fun m c => upsertCombined m c.productId c.score c.type) [],
        x.productId = pid) := by
  induction cs using List.reverseRecOn with
  | nil => refine ⟨by simp, by simp, by simp⟩
  | append_singleton cs c ih =>
    obtain ⟨ihnd, ihent, ihcomp⟩ := ih
    rw [List.foldl_append]
    simp only [List.foldl_cons, List.foldl_nil]
    set m := cs.foldl (fun m c => upsertCombined m c.productId c.score c.type) []
      with hm
    simp only [upsertCombined]
    by_cases hany : m.any (fun y => y.productId == c.productId)
    · rw [if_pos hany]
      obtain ⟨y0, hy0m, hy0pid⟩ := List.any_eq_true.mp hany
      rw [beq_iff_eq] at hy0pid
      have hkeys : (m.map (fun y => if y.productId == c.productId then
          (⟨y.productId, y.score + c.score, y.sources ++ [c.type]⟩ : Combined)
          else y)).map (·.productId) = m.map (·.productId) := by
        rw [List.map_map]
        apply List.map_congr_left
        intro y _
        by_cases hy : y.productId = c.productId
        · simp only [Function.comp_apply, if_pos (beq_iff_eq.mpr hy)]
        · show (if (y.productId == c.productId) = true then
            (⟨y.productId, y.score + c.score, y.sources ++ [c.type]⟩ : Combined)
            else y).productId = y.productId
          rw [if_neg (by simpa using hy)]
      refine ⟨by rw [hkeys]; exact ihnd, ?_, ?_⟩
      · intro x hx
        obtain ⟨y, hym, rfl⟩ := List.mem_map.mp hx
        obtain ⟨hkey, hscore, hsrc⟩ := ihent y hym
        by_cases hy : y.productId = c.productId
        · rw [if_pos (beq_iff_eq.mpr hy)]
          refine ⟨?_, ?_, ?_⟩
          · show y.productId ∈ _
            simp only [List.map_append, List.mem_append]
            exact Or.inl hkey
          · show y.score + c.score = sumScore y.productId (cs ++ [c])
            rw [sumScore_append_singleton, if_pos (beq_iff_eq.mpr hy.symm), hscore]
          · show y.sources ++ [c.type] = tagsFor y.productId (cs ++ [c])
            rw [tagsFor_append_singleton, if_pos (beq_iff_eq.mpr hy.symm), hsrc]
        · rw [if_neg (by simpa using hy)]
          have hne : ¬((c.productId == y.productId) = true) := by
            simp only [beq_iff_eq]
            exact fun h => hy h.symm
          refine ⟨?_, ?_, ?_⟩
          · simp only [List.map_append, List.mem_append]
            exact Or.inl hkey
          · rw [sumScore_append_singleton, if_neg hne, hscore, add_zero]
          · rw [tagsFor_append_singleton, if_neg hne, hsrc, List.append_nil]
      · intro pid hpid
        simp only [List.map_append, List.mem_append, List.map_cons,
          List.map_nil, List.mem_singleton] at hpid
        rcases hpid with hpid | hpid
        · obtain ⟨x, hxm, hxpid⟩ := ihcomp pid hpid
          refine ⟨_, List.mem_map_of_mem _ hxm, ?_⟩
          by_cases hx : x.productId = c.productId
          · rw [if_pos (beq_iff_eq.mpr hx)]
            exact hxpid
          · rw [if_neg (by simpa using hx)]
            exact hxpid
        · refine ⟨_, List.mem_map_of_mem _ hy0m, ?_⟩
          rw [if_pos (beq_iff_eq.mpr hy0pid)]
          exact hy0pid.trans hpid.symm
    · rw [if_neg hany]
      have hnotin : c.productId ∉ m.map (·.productId) := by
        intro hmem
        apply hany
        rw [List.any_eq_true]
        obtain ⟨y, hym, hypid⟩ := List.mem_map.mp hmem
        exact ⟨y, hym, beq_iff_eq.mpr hypid⟩
      have hnotcs : c.productId ∉ cs.map (·.productId) := by
        intro hmem
        obtain ⟨x, hxm, hxpid⟩ := ihcomp _ hmem
        exact hnotin (hxpid ▸ List.mem_map_of_mem (·.productId) hxm)
      refine ⟨?_, ?_, ?_⟩
      · rw [List.map_append]
        rw [List.nodup_append]
        exact ⟨ihnd, by simp, by simpa using hnotin⟩
      · intro x hx
        rcases List.mem_append.mp hx with hxm | hxnew
        · obtain ⟨hkey, hscore, hsrc⟩ := ihent x hxm
          have hne : ¬(c.productId == x.productId) := by
            simp only [beq_iff_eq]
            intro h
            exact hnotin (h ▸ List.mem_map_of_mem (·.productId) hxm)
          refine ⟨?_, ?_, ?_⟩
          · simp only [List.map_append, List.mem_append]
            exact Or.inl hkey
          · rw [sumScore_append_singleton, if_neg hne, hscore, add_zero]
          · rw [tagsFor_append_singleton, if_neg hne, hsrc, List.append_nil]
        · rw [List.mem_singleton] at hxnew
          subst hxnew
          refine ⟨by simp, ?_, ?_⟩
          · rw [sumScore_append_singleton, if_pos (by simp),
              sumScore_eq_zero_of_not_mem _ _ hnotcs, zero_add]
          · rw [tagsFor_append_singleton, if_pos (by simp),
              tagsFor_eq_nil_of_not_mem _ _ hnotcs, List.nil_append]
      · intro pid hpid
        simp only [List.map_append, List.mem_append, List.map_cons,
          List.map_nil, List.mem_singleton] at hpid
        rcases hpid with hpid | hpid
        · obtain ⟨x, hxm, hxpid⟩ := ihcomp pid hpid
          exact ⟨x, List.mem_append.mpr (Or.inl hxm), hxpid⟩
        · exact ⟨_, List.mem_append.mpr (Or.inr (List.mem_singleton.mpr rfl)),
            hpid.symm⟩

/-- Reference combined score, following the spec's words: for each input
list, the candidate's scores in that list times the list's weight, summed
over all lists. -/
noncomputable def combinedScore (pid : String)
    (sources : List (List Candidate × ℝ)) : ℝ :=
  (sources.map (fun sw =>
    ((sw.1.filter (fun r => r.productId == pid)).map (fun r => r.score * sw.2)).sum)).sum

lemma sumScore_append (pid : String) (a b : List Candidate) :
    sumScore pid (a ++ b) = sumScore pid a + sumScore pid b := by
  simp [sumScore, List.filter_append]

lemma sumScore_weightedEntries (pid : String)
    (sources : List (List Candidate × ℝ)) :
    sumScore pid (weightedEntries sources) = combinedScore pid sources := by
  induction sources with
  | nil => simp [sumScore, weightedEntries, combinedScore]
  | cons sw rest ih =>
    rw [weightedEntries, List.flatMap_cons, sumScore_append]
    rw [weightedEntries] at ih
    simp only [combinedScore, List.map_cons, List.sum_cons]
    rw [combinedScore] at ih
    rw [ih]
    congr 1
    rw [sumScore, List.filter_map, List.map_map]
    rfl

lemma mem_tagsFor_weightedEntries (pid : String) (t : String)
    (sources : List (List Candidate × ℝ)) :
    t ∈ tagsFor pid (weightedEntries sources) ↔
      ∃ sw ∈ sources, ∃ r ∈ sw.1, r.productId = pid ∧ r.type = t := by
  simp only [tagsFor, weightedEntries, List.mem_map, List.mem_filter,
    List.mem_flatMap, beq_iff_eq]
  constructor
  · rintro ⟨c, ⟨⟨sw, hsw, ⟨r, hr, rfl⟩⟩, hcpid⟩, hct⟩
    exact ⟨sw, hsw, r, hr, hcpid, hct⟩
  · rintro ⟨sw, hsw, r, hr, hpid, ht⟩
    exact ⟨⟨r.productId, r.score * sw.2, r.type⟩,
      ⟨⟨sw, hsw, r, hr, rfl⟩, hpid⟩, ht⟩

lemma mem_keys_weightedEntries (pid : String)
    (sources : List (List Candidate × ℝ)) :
    pid ∈ (weightedEntries sources).map (·.productId) ↔
      ∃ sw ∈ sources, ∃ r ∈ sw.1, r.productId = pid := by
  simp only [weightedEntries, List.map_flatMap, List.mem_flatMap, List.mem_map,
    List.map_map]
  constructor
  · rintro ⟨sw, hsw, hpid⟩
    simp only [List.mem_map, Function.comp_apply] at hpid
    obtain ⟨r, hr, hrpid⟩ := hpid
    exact ⟨sw, hsw, r, hr, hrpid⟩
  · rintro ⟨sw, hsw, r, hr, hrpid⟩
    refine ⟨sw, hsw, ?_⟩
    simp only [List.mem_map, Function.comp_apply]
    exact ⟨r, hr, hrpid⟩

lemma mem_combineRecommendations_iff (x : Combined)
    (sources : List (List Candidate × ℝ)) :
    x ∈ combineRecommendations sources ↔ x ∈ combineAccum sources :=
  (sortByScoreDesc_perm Combined.score (combineAccum sources)).mem_iff

/-- The merged map's keys are pairwise distinct (shared helper, also the
dedup half of claim C5). -/
lemma combineRecommendations_keys_nodup (sources : List (List Candidate × ℝ)) :
    ((combineRecommendations sources).map (·.productId)).Nodup := by
  have hperm := (sortByScoreDesc_perm Combined.score (combineAccum sources)).map
    (·.productId)
  rw [combineRecommendations, hperm.nodup_iff,
    combineAccum_eq_foldl_weightedEntries]
  exact (foldl_upsertCombined_spec (weightedEntries sources)).1

/-- Claim C3: every merged candidate's score is the sum over all input
lists of (its score in that list × that list's weight), its source tags
are exactly the types of the lists containing it, and a product appears
in the merged output iff it appears in some input list.  In particular
(witness below) a candidate appearing in the collaborative list with
score `c` and the content list with score `d` under the default weights
0.4/0.4/0.2 gets combined score exactly `0.4·c + 0.4·d`. -/
theorem combineRecommendations_score_sum_and_sources
    (sources : List (List Candidate × ℝ)) :
    (∀ x ∈ combineRecommendations sources,
      x.score = combinedScore x.productId sources ∧
      (∀ t, t ∈ x.sources ↔ ∃ sw ∈ sources, ∃ r ∈ sw.1,
        r.productId = x.productId ∧ r.type = t)) ∧
    (∀ pid, (∃ sw ∈ sources, ∃ r ∈ sw.1, r.productId = pid) ↔
      ∃ x ∈ combineRecommendations sources, x.productId = pid) := by
  obtain ⟨hnd, hent, hcomp⟩ := foldl_upsertCombined_spec (weightedEntries sources)
  constructor
  · intro x hx
    rw [mem_combineRecommendations_iff,
      combineAccum_eq_foldl_weightedEntries] at hx
    obtain ⟨-, hscore, hsrc⟩ := hent x hx
    refine ⟨by rw [hscore, sumScore_weightedEntries], ?_⟩
    intro t
    rw [hsrc, mem_tagsFor_weightedEntries]
  · intro pid
    constructor
    · intro h
      obtain ⟨x, hx, hxpid⟩ :=
        hcomp pid ((mem_keys_weightedEntries pid sources).mpr h)
      refine ⟨x, ?_, hxpid⟩
      rw [mem_combineRecommendations_iff, combineAccum_eq_foldl_weightedEntries]
      exact hx
    · rintro ⟨x, hx, rfl⟩
      rw [mem_combineRecommendations_iff,
        combineAccum_eq_foldl_weightedEntries] at hx
      exact (mem_keys_weightedEntries _ sources).mp (hent x hx).1

/-- Witness for C3 at the spec's default-weight example: `"P1"` appears
in the collaborative list with score 0.5 and in the content list with
score 0.8; its combined score is `0.4*0.5 + 0.4*0.8 = 0.52`. -/
theorem combineRecommendations_score_sum_and_sources_witness :
    ∃ x ∈ combineRecommendations
      [([⟨"P1", 0.5, "collaborative"⟩], 0.4),
       ([⟨"P1", 0.8, "content-based"⟩], 0.4),
       ([], 0.2)], x.productId = "P1" ∧ x.score = 0.52 := by
  have h := combineRecommendations_score_sum_and_sources
    [([⟨"P1", 0.5, "collaborative"⟩], 0.4),
     ([⟨"P1", 0.8, "content-based"⟩], 0.4),
     ([], 0.2)]
  obtain ⟨x, hx, hxpid⟩ := (h.2 "P1").mp
    ⟨_, List.mem_cons_self _ _, ⟨"P1", 0.5, "collaborative"⟩,
      List.mem_singleton.mpr rfl, rfl⟩
  refine ⟨x, hx, hxpid, ?_⟩
  rw [(h.1 x hx).1, hxpid]
  simp only [combinedScore, List.map_cons, List.map_nil, List.filter_cons,
    List.filter_nil, beq_self_eq_true, if_pos]
  norm_num

lemma sortByScoreDesc_of_sorted {α : Type} (score : α → ℝ) (l : List α)
    (h : l.Pairwise (fun a b => score b ≤ score a)) :
    sortByScoreDesc score l = l :=
  List.mergeSort_of_sorted (h.imp (fun hab => decide_eq_true hab))

/-- Counterexample to claim C10: the hybrid combine step breaks score
ties by insertion order, not by productId.  The same two candidates
`"A"` and `"B"`, with identical (equal) accumulated scores, come out in
opposite relative orders for two inputs that only differ in list order —
so no tie-breaking rule that is a function of the two productIds can
describe the output order. -/
theorem combineRecommendations_tie_order_not_by_productId :
    ((combineRecommendations [([⟨"B", 1, "trending"⟩, ⟨"A", 1, "trending"⟩], 1)]).map
        (·.productId) = ["B", "A"] ∧
      (combineRecommendations [([⟨"A", 1, "trending"⟩, ⟨"B", 1, "trending"⟩], 1)]).map
        (·.productId) = ["A", "B"]) ∧
    (∀ x ∈ combineRecommendations [([⟨"B", 1, "trending"⟩, ⟨"A", 1, "trending"⟩], 1)],
      x.score = 1) ∧
    (∀ x ∈ combineRecommendations [([⟨"A", 1, "trending"⟩, ⟨"B", 1, "trending"⟩], 1)],
      x.score = 1) := by
  have h1 : combineAccum [([⟨"B", 1, "trending"⟩, ⟨"A", 1, "trending"⟩], 1)] =
      [⟨"B", 1, ["trending"]⟩, ⟨"A", 1, ["trending"]⟩] := by
    simp [combineAccum, upsertCombined]
  have h2 : combineAccum [([⟨"A", 1, "trending"⟩, ⟨"B", 1, "trending"⟩], 1)] =
      [⟨"A", 1, ["trending"]⟩, ⟨"B", 1, ["trending"]⟩] := by
    simp [combineAccum, upsertCombined]
  have hs1 : combineRecommendations [([⟨"B", 1, "trending"⟩, ⟨"A", 1, "trending"⟩], 1)] =
      [⟨"B", 1, ["trending"]⟩, ⟨"A", 1, ["trending"]⟩] := by
    rw [combineRecommendations, h1]
    apply sortByScoreDesc_of_sorted
    simp [List.pairwise_cons]
  have hs2 : combineRecommendations [([⟨"A", 1, "trending"⟩, ⟨"B", 1, "trending"⟩], 1)] =
      [⟨"A", 1, ["trending"]⟩, ⟨"B", 1, ["trending"]⟩] := by
    rw [combineRecommendations, h2]
    apply sortByScoreDesc_of_sorted
    simp [List.pairwise_cons]
  refine ⟨⟨by rw [hs1]; rfl, by rw [hs2]; rfl⟩, ?_, ?_⟩
  · intro x hx
    rw [hs1] at hx
    simp only [List.mem_cons, List.not_mem_nil, or_false] at hx
    rcases hx with rfl | rfl
    · rfl
    · rfl
  · intro x hx
    rw [hs2] at hx
    simp only [List.mem_cons, List.not_mem_nil, or_false] at hx
    rcases hx with rfl | rfl
    · rfl
    · rfl

/-- Claim C10 amended: the merged list is ordered by accumulated score
descending, and (stability of the sort) two candidates with equal
accumulated scores keep their relative accumulation order — the order of
first appearance across the weighted source lists — rather than an order
determined by their productId. -/
theorem combineRecommendations_sorted_desc_stable
    (sources : List (List Candidate × ℝ)) :
    (combineRecommendations sources).Pairwise (fun a b => b.score ≤ a.score) ∧
    ∀ a b, List.Sublist [a, b] (combineAccum sources) → b.score ≤ a.score →
      List.Sublist [a, b] (combineRecommendations sources) := by
  refine ⟨sortByScoreDesc_sorted Combined.score (combineAccum sources), ?_⟩
  intro a b hsub hba
  exact sortByScoreDesc_pair_stable Combined.score (combineAccum sources) a b hsub hba

/-- Witness for the amended C10 at a concrete tie: the equal-scored pair
`"B"`, `"A"` keeps its accumulation order in the sorted output. -/
theorem combineRecommendations_sorted_desc_stable_witness :
    List.Sublist
      [(⟨"B", 1, ["trending"]⟩ : Combined), ⟨"A", 1, ["trending"]⟩]
      (combineAccum [([⟨"B", 1, "trending"⟩, ⟨"A", 1, "trending"⟩], 1)]) ∧
    ((⟨"A", 1, ["trending"]⟩ : Combined)).score ≤
      ((⟨"B", 1, ["trending"]⟩ : Combined)).score ∧
    List.Sublist
      [(⟨"B", 1, ["trending"]⟩ : Combined), ⟨"A", 1, ["trending"]⟩]
      (combineRecommendations [([⟨"B", 1, "trending"⟩, ⟨"A", 1, "trending"⟩], 1)]) := by
  have h1 : combineAccum [([⟨"B", 1, "trending"⟩, ⟨"A", 1, "trending"⟩], 1)] =
      [⟨"B", 1, ["trending"]⟩, ⟨"A", 1, ["trending"]⟩] := by
    simp [combineAccum, upsertCombined]
  have hsub : List.Sublist
      [(⟨"B", 1, ["trending"]⟩ : Combined), ⟨"A", 1, ["trending"]⟩]
      (combineAccum [([⟨"B", 1, "trending"⟩, ⟨"A", 1, "trending"⟩], 1)]) := by
    rw [h1]
  refine ⟨hsub, le_refl 1, ?_⟩
  exact (combineRecommendations_sorted_desc_stable
    [([⟨"B", 1, "trending"⟩, ⟨"A", 1, "trending"⟩], 1)]).2 _ _ hsub (le_refl 1)

/-- A product record as read by the engine (models/Product.js): pricing,
category, brand, structured attributes and analytics counters.  The
`attributes`/`analytics` sub-objects are flattened into fields. -/
structure ProductRec where
  id : String
  name : String
  description : String
  price : ℝ
  categoryId : String
  brand : String
  colors : List String
  sizes : List String
  materials : List String
  seasons : List String
  views : ℝ
  averageRating : ℝ

/-- The user preference profile consumed by `applyPersonalizationBoost`
(preferences.categories / priceRange / brands, with the source's
defaulting `user.preferences?.priceRange || {min: 0, max: 10000}` applied
upstream). -/
structure UserPrefs where
  categories : List String
  priceMin : ℝ
  priceMax : ℝ
  brands : List String

/-- A boosted recommendation entry (ChatbotService.js:946–951).  When the
product lookup fails the source returns the candidate unchanged, which is
modelled as boost `1` with the score untouched. -/
structure Boosted where
  productId : String
  score : ℝ
  sources : List String
  boost : ℝ

/-- `getCurrentSeason()` (ChatbotService.js:1074–1080) on a zero-based
month (JavaScript `Date.getMonth()`), passed explicitly. -/
def getCurrentSeason (month : ℕ) : String :=
  if 2 ≤ month ∧ month ≤ 4 then "spring"
  else if 5 ≤ month ∧ month ≤ 7 then "summer"
  else if 8 ≤ month ∧ month ≤ 10 then "fall"
  else "winter"

/-- The sequential boost computation of `applyPersonalizationBoost`
(ChatbotService.js:921–943): start at 1 and multiply by 1.3 / 1.2 / 1.4 /
1.1 for each matching rule. -/
noncomputable def boostFactor (user : UserPrefs) (product : ProductRec)
    (month : ℕ) : ℝ :=
  let boost : ℝ := 1
  let boost := if user.categories.contains product.categoryId then boost * 1.3 else boost
  let boost := if user.priceMin ≤ product.price ∧ product.price ≤ user.priceMax
    then boost * 1.2 else boost
  let boost := if user.brands.contains product.brand then boost * 1.4 else boost
  if product.seasons.contains (getCurrentSeason month) then boost * 1.1 else boost

/-- The per-candidate step of `applyPersonalizationBoost`
(ChatbotService.js:917–951): look the candidate's product up (the
`Map`-based lookup coincides with `find?` for distinct product ids); if
absent the candidate is returned unchanged (modelled as boost 1),
otherwise its score is multiplied by the boost. -/
noncomputable def boostCandidate (user : UserPrefs) (products : List ProductRec)
    (month : ℕ) (r : Combined) : Boosted :=
  match products.find? (fun p => p.id == r.productId) with
  | none => ⟨r.productId, r.score, r.sources, 1⟩
  | some p => ⟨r.productId, r.score * boostFactor user p month, r.sources,
      boostFactor user p month⟩

/-- `applyPersonalizationBoost(recommendations, user)`
(ChatbotService.js:910–953): boost every candidate, then re-sort by
boosted score. -/
noncomputable def applyPersonalizationBoost (recs : List Combined)
    (user : UserPrefs) (products : List ProductRec) (month : ℕ) : List Boosted :=
  sortByScoreDesc Boosted.score (recs.map (boostCandidate user products month))

lemma boostCandidate_productId (user : UserPrefs) (products : List ProductRec)
    (month : ℕ) (r : Combined) :
    (boostCandidate user products month r).productId = r.productId := by
  rw [boostCandidate]
  cases products.find? (fun p => p.id == r.productId) with
  | none => rfl
  | some p => rfl

/-- Claim C4: the boost applied to a candidate is exactly the product of
the matching factors among 1.3 (category), 1.2 (price range), 1.4 (brand)
and 1.1 (season); a candidate matching no rule keeps boost 1; every boost
is at most `1.3 * 1.2 * 1.4 * 1.1`; and in `applyPersonalizationBoost`
each candidate whose product is found is emitted with that boost and its
score multiplied by it. -/
theorem applyPersonalizationBoost_factors (user : UserPrefs) (month : ℕ) :
    (∀ product : ProductRec,
      boostFactor user product month =
        (if user.categories.contains product.categoryId then (1.3 : ℝ) else 1) *
        (if user.priceMin ≤ product.price ∧ product.price ≤ user.priceMax
          then (1.2 : ℝ) else 1) *
        (if user.brands.contains product.brand then (1.4 : ℝ) else 1) *
        (if product.seasons.contains (getCurrentSeason month) then (1.1 : ℝ) else 1)) ∧
    (∀ product : ProductRec,
      boostFactor user product month ≤ 1.3 * 1.2 * 1.4 * 1.1) ∧
    (∀ product : ProductRec,
      ¬ user.categories.contains product.categoryId →
      ¬ (user.priceMin ≤ product.price ∧ product.price ≤ user.priceMax) →
      ¬ user.brands.contains product.brand →
      ¬ product.seasons.contains (getCurrentSeason month) →
      boostFactor user product month = 1) ∧
    (∀ (recs : List Combined) (products : List ProductRec) (r : Combined),
      r ∈ recs → ∀ p, products.find? (fun p => p.id == r.productId) = some p →
      ∃ b ∈ applyPersonalizationBoost recs user products month,
        b.productId = r.productId ∧ b.boost = boostFactor user p month ∧
        b.score = r.score * boostFactor user p month) := by
  refine ⟨?_, ?_, ?_, ?_⟩
  · intro product
    simp only [boostFactor]
    split_ifs <;> ring
  · intro product
    simp only [boostFactor]
    split_ifs <;> norm_num
  · intro product h1 h2 h3 h4
    simp only [boostFactor, if_neg h1, if_neg h2, if_neg h3, if_neg h4]
  · intro recs products r hr p hfind
    refine ⟨⟨r.productId, r.score * boostFactor user p month, r.sources,
      boostFactor user p month⟩, ?_, rfl, rfl, rfl⟩
    rw [applyPersonalizationBoost]
    rw [(sortByScoreDesc_perm Boosted.score _).mem_iff]
    apply List.mem_map.mpr
    refine ⟨r, hr, ?_⟩
    rw [boostCandidate, hfind]

/-- Witness for C4: a user preferring category `"c1"`, prices `[0, 100]`
and brand `"BrandX"` in month 3 (spring); product `"P1"` matches all four
rules, so its boost is `1.3 * 1.2 * 1.4 * 1.1`. -/
theorem applyPersonalizationBoost_factors_witness :
    ∃ b ∈ applyPersonalizationBoost [⟨"P1", 1, ["trending"]⟩]
      ⟨["c1"], 0, 100, ["BrandX"]⟩
      [⟨"P1", "n", "d", 50, "c1", "BrandX", [], [], [], ["spring"], 0, 0⟩] 3,
      b.productId = "P1" ∧
      b.boost = boostFactor ⟨["c1"], 0, 100, ["BrandX"]⟩
        ⟨"P1", "n", "d", 50, "c1", "BrandX", [], [], [], ["spring"], 0, 0⟩ 3 ∧
      b.score = 1 * boostFactor ⟨["c1"], 0, 100, ["BrandX"]⟩
        ⟨"P1", "n", "d", 50, "c1", "BrandX", [], [], [], ["spring"], 0, 0⟩ 3 ∧
      b.boost = 1.3 * 1.2 * 1.4 * 1.1 := by
  obtain ⟨b, hb, hpid, hboost, hscore⟩ :=
    (applyPersonalizationBoost_factors ⟨["c1"], 0, 100, ["BrandX"]⟩ 3).2.2.2
      [⟨"P1", 1, ["trending"]⟩]
      [⟨"P1", "n", "d", 50, "c1", "BrandX", [], [], [], ["spring"], 0, 0⟩]
      ⟨"P1", 1, ["trending"]⟩ (List.mem_singleton.mpr rfl)
      ⟨"P1", "n", "d", 50, "c1", "BrandX", [], [], [], ["spring"], 0, 0⟩ rfl
  refine ⟨b, hb, hpid, hboost, hscore, ?_⟩
  rw [hboost,
    (applyPersonalizationBoost_factors ⟨["c1"], 0, 100, ["BrandX"]⟩ 3).1]
  norm_num [getCurrentSeason]

/-- One step of the collaborative `recommendations` map update
(ChatbotService.js:827–832): add the score if the product is present,
else insert it. -/
def upsertScore (m : List (String × ℝ)) (k : String) (v : ℝ) : List (String × ℝ) :=
  if m.any (fun p => p.1 == k) then
    m.map (fun p => if p.1 == k then (p.1, p.2 + v) else p)
  else m ++ [(k, v)]

/-- Total contributed score of a product over a flat contribution list. -/
noncomputable def sumScorePair (pid : String) (cs : List (String × ℝ)) : ℝ :=
  ((cs.filter (fun c => c.1 == pid)).map (·.2)).sum

lemma sumScorePair_append (pid : String) (a b : List (String × ℝ)) :
    sumScorePair pid (a ++ b) = sumScorePair pid a + sumScorePair pid b := by
  simp [sumScorePair, List.filter_append]

lemma sumScorePair_append_singleton (pid : String) (cs : List (String × ℝ))
    (c : String × ℝ) :
    sumScorePair pid (cs ++ [c]) =
      sumScorePair pid cs + (if c.1 == pid then c.2 else 0) := by
  by_cases h : c.1 == pid
  · simp [sumScorePair, List.filter_append, List.filter_cons, h]
  · simp [sumScorePair, List.filter_append, List.filter_cons, h]

lemma sumScorePair_eq_zero_of_not_mem (pid : String) (cs : List (String × ℝ))
    (h : pid ∉ cs.map Prod.fst) : sumScorePair pid cs = 0 := by
  have hfil : cs.filter (fun c => c.1 == pid) = [] := by
    rw [List.filter_eq_nil_iff]
    intro c hc
    simp only [beq_iff_eq]
    intro heq
    exact h (heq ▸ List.mem_map_of_mem Prod.fst hc)
  simp [sumScorePair, hfil]

/-- Characterization of the collaborative map-accumulation loop over a
flat contribution list. -/
lemma foldl_upsertScore_spec (cs : List (String × ℝ)) :
    ((cs.foldl (fun m c => upsertScore m c.1 c.2) []).map Prod.fst).Nodup ∧
    (∀ x ∈ cs.foldl (fun m c => upsertScore m c.1 c.2) [],
      x.1 ∈ cs.map Prod.fst ∧ x.2 = sumScorePair x.1 cs) ∧
    (∀ pid ∈ cs.map Prod.fst,
      ∃ x ∈ cs.foldl (fun m c => upsertScore m c.1 c.2) [], x.1 = pid) := by
  induction cs using List.reverseRecOn with
  | nil => refine ⟨by simp, by simp, by simp⟩
  | append_singleton cs c ih =>
    obtain ⟨ihnd, ihent, ihcomp⟩ := ih
    rw [List.foldl_append]
    simp only [List.foldl_cons, List.foldl_nil]
    set m := cs.foldl (fun m c => upsertScore m c.1 c.2) [] with hm
    simp only [upsertScore]
    by_cases hany : m.any (fun y => y.1 == c.1)
    · rw [if_pos hany]
      obtain ⟨y0, hy0m, hy0pid⟩ := List.any_eq_true.mp hany
      rw [beq_iff_eq] at hy0pid
      have hkeys : (m.map (fun y => if y.1 == c.1 then (y.1, y.2 + c.2) else y)).map
          Prod.fst = m.map Prod.fst := by
        rw [List.map_map]
        apply List.map_congr_left
        intro y _
        by_cases hy : y.1 = c.1
        · simp only [Function.comp_apply, if_pos (beq_iff_eq.mpr hy)]
        · show (if (y.1 == c.1) = true then (y.1, y.2 + c.2) else y).1 = y.1
          rw [if_neg (by simpa using hy)]
      refine ⟨by rw [hkeys]; exact ihnd, ?_, ?_⟩
      · intro x hx
        obtain ⟨y, hym, rfl⟩ := List.mem_map.mp hx
        obtain ⟨hkey, hscore⟩ := ihent y hym
        by_cases hy : y.1 = c.1
        · rw [if_pos (beq_iff_eq.mpr hy)]
          refine ⟨?_, ?_⟩
          · show y.1 ∈ _
            simp only [List.map_append, List.mem_append]
            exact Or.inl hkey
          · show y.2 + c.2 = sumScorePair y.1 (cs ++ [c])
            rw [sumScorePair_append_singleton, if_pos (beq_iff_eq.mpr hy.symm), hscore]
        · rw [if_neg (by simpa using hy)]
          have hne : ¬((c.1 == y.1) = true) := by
            simp only [beq_iff_eq]
            exact fun h => hy h.symm
          refine ⟨?_, ?_⟩
          · simp only [List.map_append, List.mem_append]
            exact Or.inl hkey
          · rw [sumScorePair_append_singleton, if_neg hne, hscore, add_zero]
      · intro pid hpid
        simp only [List.map_append, List.mem_append, List.map_cons,
          List.map_nil, List.mem_singleton] at hpid
        rcases hpid with hpid | hpid
        · obtain ⟨x, hxm, hxpid⟩ := ihcomp pid hpid
          refine ⟨_, List.mem_map_of_mem _ hxm, ?_⟩
          by_cases hx : x.1 = c.1
          · rw [if_pos (beq_iff_eq.mpr hx)]
            exact hxpid
          · rw [if_neg (by simpa using hx)]
            exact hxpid
        · refine ⟨_, List.mem_map_of_mem _ hy0m, ?_⟩
          rw [if_pos (beq_iff_eq.mpr hy0pid)]
          exact hy0pid.trans hpid.symm
    · rw [if_neg hany]
      have hnotin : c.1 ∉ m.map Prod.fst := by
        intro hmem
        apply hany
        rw [List.any_eq_true]
        obtain ⟨y, hym, hypid⟩ := List.mem_map.mp hmem
        exact ⟨y, hym, beq_iff_eq.mpr hypid⟩
      have hnotcs : c.1 ∉ cs.map Prod.fst := by
        intro hmem
        obtain ⟨x, hxm, hxpid⟩ := ihcomp _ hmem
        exact hnotin (hxpid ▸ List.mem_map_of_mem Prod.fst hxm)
      refine ⟨?_, ?_, ?_⟩
      · rw [List.map_append]
        rw [List.nodup_append]
        exact ⟨ihnd, by simp, by simpa using hnotin⟩
      · intro x hx
        rcases List.mem_append.mp hx with hxm | hxnew
        · obtain ⟨hkey, hscore⟩ := ihent x hxm
          have hne : ¬((c.1 == x.1) = true) := by
            simp only [beq_iff_eq]
            intro h
            exact hnotin (h ▸ List.mem_map_of_mem Prod.fst hxm)
          refine ⟨?_, ?_⟩
          · simp only [List.map_append, List.mem_append]
            exact Or.inl hkey
          · rw [sumScorePair_append_singleton, if_neg hne, hscore, add_zero]
        · rw [List.mem_singleton] at hxnew
          subst hxnew
          refine ⟨by simp, ?_⟩
          show c.2 = sumScorePair c.1 (cs ++ [c])
          rw [sumScorePair_append_singleton, if_pos (by simp),
            sumScorePair_eq_zero_of_not_mem _ _ hnotcs, zero_add]
      · intro pid hpid
        simp only [List.map_append, List.mem_append, List.map_cons,
          List.map_nil, List.mem_singleton] at hpid
        rcases hpid with hpid | hpid
        · obtain ⟨x, hxm, hxpid⟩ := ihcomp pid hpid
          exact ⟨x, List.mem_append.mpr (Or.inl hxm), hxpid⟩
        · exact ⟨_, List.mem_append.mpr (Or.inr (List.mem_singleton.mpr rfl)),
            hpid.symm⟩

/-- A neighbor entry of the similarity scan
(ChatbotService.js:806–809): `{ userIndex, similarity }`. -/
structure SimEntry where
  userIndex : ℕ
  similarity : ℝ

/-- The similarity-collection loop of `getCollaborativeRecommendations`
(ChatbotService.js:799–811): every other row with cosine similarity
strictly above 0.1 against the target row, in row order. -/
noncomputable def similarUsers (m : UserItemMatrix) (userIndex : ℕ) :
    List SimEntry :=
  (List.range m.matrix.length).filterMap (fun i =>
    if i ≠ userIndex then
      if 0.1 < cosineSimilarity (m.matrix.getD userIndex []) (m.matrix.getD i [])
      then some ⟨i, cosineSimilarity (m.matrix.getD userIndex []) (m.matrix.getD i [])⟩
      else none
    else none)

/-- Sort the similarities descending and keep the 10 most similar users
(ChatbotService.js:813–818). -/
noncomputable def topSimilarUsers (m : UserItemMatrix) (userIndex : ℕ) :
    List SimEntry :=
  (sortByScoreDesc SimEntry.similarity (similarUsers m userIndex)).take 10

/-- The score-accumulation loops of `getCollaborativeRecommendations`
(ChatbotService.js:820–836): for each kept neighbor and each column where
the target cell is `0` and the neighbor cell is positive, add
`neighbor_cell * neighbor_similarity` into the map. -/
noncomputable def collabAccum (m : UserItemMatrix) (userIndex : ℕ) :
    List (String × ℝ) :=
  (topSimilarUsers m userIndex).foldl (fun recommendations su =>
    (List.range (m.matrix.getD su.userIndex []).length).foldl
      (fun recs productIndex =>
        if (m.matrix.getD userIndex []).getD productIndex 0 = 0 ∧
            0 < (m.matrix.getD su.userIndex []).getD productIndex 0 then
          upsertScore recs (m.productIds.getD productIndex "")
            ((m.matrix.getD su.userIndex []).getD productIndex 0 * su.similarity)
        else recs) recommendations) []

/-- `getCollaborativeRecommendations(userId, limit)`
(ChatbotService.js:792–841): empty when the user id is not a matrix row;
otherwise accumulate, convert to candidates, sort by score descending and
truncate to `limit`. -/
noncomputable def getCollaborativeRecommendations (m : UserItemMatrix)
    (userId : String) (limit : ℕ) : List Candidate :=
  match m.userIds.indexOf? userId with
  | none => []
  | some userIndex =>
    (sortByScoreDesc Candidate.score
      ((collabAccum m userIndex).map (fun p => ⟨p.1, p.2, "collaborative"⟩))).take
      limit

/-- The contributions of one kept neighbor, flattened in column order. -/
noncomputable def suContribs (m : UserItemMatrix) (userIndex : ℕ)
    (su : SimEntry) : List (String × ℝ) :=
  (List.range (m.matrix.getD su.userIndex []).length).filterMap
    (fun productIndex =>
      if (m.matrix.getD userIndex []).getD productIndex 0 = 0 ∧
          0 < (m.matrix.getD su.userIndex []).getD productIndex 0 then
        some (m.productIds.getD productIndex "",
          (m.matrix.getD su.userIndex []).getD productIndex 0 * su.similarity)
      else none)

/-- All neighbors' contributions, flattened in processing order. -/
noncomputable def collabContribs (m : UserItemMatrix) (userIndex : ℕ) :
    List (String × ℝ) :=
  (topSimilarUsers m userIndex).flatMap (suContribs m userIndex)

lemma foldl_filterMap_eq {α β γ : Type _} (g : α → Option β) (f : γ → β → γ)
    (l : List α) (init : γ) :
    (l.filterMap g).foldl f init =
      l.foldl (fun acc a => match g a with | some b => f acc b | none => acc)
        init := by
  induction l generalizing init with
  | nil => rfl
  | cons x xs ih =>
    cases hx : g x with
    | none => simp [List.filterMap_cons, hx, ih]
    | some b => simp [List.filterMap_cons, hx, ih]

lemma foldl_filterMap_ite {α β γ : Type _} (p : α → Prop) [DecidablePred p]
    (val : α → β) (f : γ → β → γ) (l : List α) (init : γ) :
    (l.filterMap (fun a => if p a then some (val a) else none)).foldl f init =
      l.foldl (fun acc a => if p a then f acc (val a) else acc) init := by
  induction l generalizing init with
  | nil => rfl
  | cons x xs ih =>
    by_cases hx : p x
    · simp only [List.filterMap_cons, if_pos hx, List.foldl_cons]
      exact ih _
    · simp only [List.filterMap_cons, if_neg hx, List.foldl_cons]
      exact ih _

lemma collabAccum_eq_foldl_contribs (m : UserItemMatrix) (userIndex : ℕ) :
    collabAccum m userIndex = (collabContribs m userIndex).foldl
      (fun acc c => upsertScore acc c.1 c.2) [] := by
  rw [collabAccum, collabContribs]
  generalize ([] : List (String × ℝ)) = init
  induction topSimilarUsers m userIndex generalizing init with
  | nil => rfl
  | cons su rest ih =>
    simp only [List.foldl_cons, List.flatMap_cons, List.foldl_append]
    rw [← ih]
    congr 1
    rw [suContribs, foldl_filterMap_ite]

/-- Reference accumulated score (spec §4.3): the sum over the kept
neighbors of `neighbor_cell * neighbor_similarity`, over exactly the
columns where the target cell is 0 and the neighbor cell is positive. -/
noncomputable def collabReferenceScore (m : UserItemMatrix)
    (userIndex productIndex : ℕ) : ℝ :=
  ((topSimilarUsers m userIndex).map (fun su =>
    if (m.matrix.getD userIndex []).getD productIndex 0 = 0 ∧
        0 < (m.matrix.getD su.userIndex []).getD productIndex 0 then
      (m.matrix.getD su.userIndex []).getD productIndex 0 * su.similarity
    else 0)).sum

open Classical in
/-- Reference candidate set (spec §4.3), in column order: every product
the target user has not interacted with and at least one kept neighbor
has, with its summed score. -/
noncomputable def collabReference (m : UserItemMatrix) (userIndex : ℕ) :
    List Candidate :=
  (List.range m.productIds.length).filterMap (fun j =>
    if (m.matrix.getD userIndex []).getD j 0 = 0 ∧
        ∃ su ∈ topSimilarUsers m userIndex,
          0 < (m.matrix.getD su.userIndex []).getD j 0 then
      some ⟨m.productIds.getD j "", collabReferenceScore m userIndex j,
        "collaborative"⟩
    else none)

lemma sumScorePair_flatMap (pid : String) {α : Type _} (L : List α)
    (g : α → List (String × ℝ)) :
    sumScorePair pid (L.flatMap g) =
      (L.map (fun a => sumScorePair pid (g a))).sum := by
  induction L with
  | nil => simp [sumScorePair]
  | cons a L ih =>
    rw [List.flatMap_cons, sumScorePair_append, List.map_cons, List.sum_cons, ih]

lemma sumScorePair_singleton_entry (k : String) (p : String × ℝ) :
    sumScorePair k [p] = if p.1 == k then p.2 else 0 := by
  by_cases h : p.1 == k
  · simp [sumScorePair, List.filter_cons, h]
  · simp [sumScorePair, List.filter_cons, h]

lemma sumScorePair_filterMap_range (f : ℕ → Option (String × ℝ)) (n j : ℕ)
    (k : String) (hj : j < n)
    (hother : ∀ i, i < n → i ≠ j → ∀ p, f i = some p → p.1 ≠ k) :
    sumScorePair k ((List.range n).filterMap f) =
      (match f j with
       | some p => if p.1 == k then p.2 else 0
       | none => 0) := by
  induction n with
  | zero => omega
  | succ n ih =>
    rw [List.range_succ, List.filterMap_append, sumScorePair_append]
    by_cases hjn : j = n
    · subst hjn
      have hpre : sumScorePair k ((List.range j).filterMap f) = 0 := by
        apply sumScorePair_eq_zero_of_not_mem
        intro hk
        obtain ⟨p, hp, hpk⟩ := List.mem_map.mp hk
        obtain ⟨i, hi, hfi⟩ := List.mem_filterMap.mp hp
        rw [List.mem_range] at hi
        exact hother i (Nat.lt_succ_of_lt hi) (Nat.ne_of_lt hi) p hfi hpk
      rw [hpre, zero_add]
      cases hfj : f j with
      | none => simp [List.filterMap_cons, hfj, sumScorePair]
      | some p => simp [List.filterMap_cons, hfj, sumScorePair_singleton_entry]
    · have hjlt' : j < n := by omega
      rw [ih hjlt' (fun i hi hij p hfi => hother i (Nat.lt_succ_of_lt hi) hij p hfi)]
      have hsuf : sumScorePair k ((List.filterMap f [n])) = 0 := by
        cases hfn : f n with
        | none => simp [List.filterMap_cons, hfn, sumScorePair]
        | some p =>
          simp only [List.filterMap_cons, hfn, List.filterMap_nil]
          rw [sumScorePair_singleton_entry,
            if_neg (by simpa using hother n (Nat.lt_succ_self n) (fun h => hjn h.symm) p hfn)]
      rw [hsuf, add_zero]

lemma topSimilarUsers_userIndex_lt (m : UserItemMatrix) (userIndex : ℕ)
    (su : SimEntry) (hsu : su ∈ topSimilarUsers m userIndex) :
    su.userIndex < m.matrix.length := by
  have hsim : su ∈ similarUsers m userIndex := by
    have h1 := List.mem_of_mem_take hsu
    exact (sortByScoreDesc_perm SimEntry.similarity _).mem_iff.mp h1
  rw [similarUsers] at hsim
  obtain ⟨i, hi, hfi⟩ := List.mem_filterMap.mp hsim
  rw [List.mem_range] at hi
  by_cases hne : i ≠ userIndex
  · rw [if_pos hne] at hfi
    by_cases hgt : (0.1 : ℝ) < cosineSimilarity (m.matrix.getD userIndex [])
        (m.matrix.getD i [])
    · rw [if_pos hgt] at hfi
      cases hfi
      exact hi
    · rw [if_neg hgt] at hfi
      cases hfi
  · rw [if_neg hne] at hfi
    cases hfi

lemma topSimilarUsers_row_length (m : UserItemMatrix) (userIndex : ℕ)
    (hwidth : ∀ row ∈ m.matrix, row.length = m.productIds.length)
    (su : SimEntry) (hsu : su ∈ topSimilarUsers m userIndex) :
    (m.matrix.getD su.userIndex []).length = m.productIds.length := by
  have hlt := topSimilarUsers_userIndex_lt m userIndex su hsu
  rw [List.getD_eq_getElem m.matrix [] hlt]
  exact hwidth _ (List.getElem_mem hlt)

lemma sumScorePair_suContribs (m : UserItemMatrix) (userIndex : ℕ)
    (hnd : m.productIds.Nodup) (su : SimEntry) (j : ℕ)
    (hj : j < m.productIds.length)
    (hlen : (m.matrix.getD su.userIndex []).length = m.productIds.length) :
    sumScorePair (m.productIds.getD j "") (suContribs m userIndex su) =
      if (m.matrix.getD userIndex []).getD j 0 = 0 ∧
          0 < (m.matrix.getD su.userIndex []).getD j 0 then
        (m.matrix.getD su.userIndex []).getD j 0 * su.similarity
      else 0 := by
  rw [suContribs, hlen,
    sumScorePair_filterMap_range _ m.productIds.length j _ hj]
  · by_cases hc : (m.matrix.getD userIndex []).getD j 0 = 0 ∧
        0 < (m.matrix.getD su.userIndex []).getD j 0
    · rw [if_pos hc, if_pos hc]
      simp
    · rw [if_neg hc, if_neg hc]
  · intro i hi hij p hfi
    by_cases hc : (m.matrix.getD userIndex []).getD i 0 = 0 ∧
        0 < (m.matrix.getD su.userIndex []).getD i 0
    · rw [if_pos hc] at hfi
      cases hfi
      show m.productIds.getD i "" ≠ m.productIds.getD j ""
      rw [List.getD_eq_getElem m.productIds "" hi,
        List.getD_eq_getElem m.productIds "" hj]
      intro heq
      exact hij (hnd.getElem_inj_iff.mp heq)
    · rw [if_neg hc] at hfi
      cases hfi

lemma sumScorePair_collabContribs (m : UserItemMatrix) (userIndex : ℕ)
    (hwidth : ∀ row ∈ m.matrix, row.length = m.productIds.length)
    (hnd : m.productIds.Nodup) (j : ℕ) (hj : j < m.productIds.length) :
    sumScorePair (m.productIds.getD j "") (collabContribs m userIndex) =
      collabReferenceScore m userIndex j := by
  rw [collabContribs, sumScorePair_flatMap, collabReferenceScore]
  congr 1
  apply List.map_congr_left
  intro su hsu
  exact sumScorePair_suContribs m userIndex hnd su j hj
    (topSimilarUsers_row_length m userIndex hwidth su hsu)

lemma mem_keys_collabContribs (m : UserItemMatrix) (userIndex : ℕ)
    (k : String) :
    k ∈ (collabContribs m userIndex).map Prod.fst ↔
      ∃ su ∈ topSimilarUsers m userIndex,
        ∃ j, j < (m.matrix.getD su.userIndex []).length ∧
          ((m.matrix.getD userIndex []).getD j 0 = 0 ∧
            0 < (m.matrix.getD su.userIndex []).getD j 0) ∧
          m.productIds.getD j "" = k := by
  rw [collabContribs]
  constructor
  · intro hk
    obtain ⟨p, hp, hpk⟩ := List.mem_map.mp hk
    obtain ⟨su, hsu, hpsu⟩ := List.mem_flatMap.mp hp
    rw [suContribs] at hpsu
    obtain ⟨j, hjr, hfj⟩ := List.mem_filterMap.mp hpsu
    rw [List.mem_range] at hjr
    by_cases hc : (m.matrix.getD userIndex []).getD j 0 = 0 ∧
        0 < (m.matrix.getD su.userIndex []).getD j 0
    · rw [if_pos hc] at hfj
      cases hfj
      exact ⟨su, hsu, j, hjr, hc, hpk⟩
    · rw [if_neg hc] at hfj
      cases hfj
  · rintro ⟨su, hsu, j, hjr, hc, rfl⟩
    apply List.mem_map.mpr
    refine ⟨(m.productIds.getD j "",
      (m.matrix.getD su.userIndex []).getD j 0 * su.similarity), ?_, rfl⟩
    apply List.mem_flatMap.mpr
    refine ⟨su, hsu, ?_⟩
    rw [suContribs]
    apply List.mem_filterMap.mpr
    exact ⟨j, List.mem_range.mpr hjr, if_pos hc⟩

lemma filterMap_ite_eq_filter_map {α β : Type _} (p : α → Prop)
    [DecidablePred p] (g : α → β) (l : List α) :
    l.filterMap (fun a => if p a then some (g a) else none) =
      (l.filter (fun a => decide (p a))).map g := by
  induction l with
  | nil => rfl
  | cons x xs ih =>
    by_cases hx : p x
    · simp [List.filterMap_cons, if_pos hx, List.filter_cons,
        decide_eq_true hx, List.map_cons, ih, hx]
    · simp [List.filterMap_cons, if_neg hx, List.filter_cons, ih,
        decide_eq_false hx, hx]

lemma map_getD_range (l : List String) :
    (List.range l.length).map (fun j => l.getD j "") = l := by
  apply List.ext_getElem
  · simp
  · intro i h1 h2
    simp only [List.getElem_map, List.getElem_range]
    exact List.getD_eq_getElem l "" h2

lemma map_collabAccum_perm_reference (m : UserItemMatrix) (uidx : ℕ)
    (hwidth : ∀ row ∈ m.matrix, row.length = m.productIds.length)
    (hnd : m.productIds.Nodup) :
    List.Perm
      ((collabAccum m uidx).map
        (fun p => (⟨p.1, p.2, "collaborative"⟩ : Candidate)))
      (collabReference m uidx) := by
  obtain ⟨hknd, hent, hcomp⟩ := foldl_upsertScore_spec (collabContribs m uidx)
  have hacc := collabAccum_eq_foldl_contribs m uidx
  have hknd' : ((collabAccum m uidx).map Prod.fst).Nodup := by
    rw [hacc]; exact hknd
  have hnd1 : ((collabAccum m uidx).map
      (fun p => (⟨p.1, p.2, "collaborative"⟩ : Candidate))).Nodup := by
    apply List.Nodup.of_map (fun c => c.productId)
    rw [List.map_map]
    exact hknd'
  have hnd2 : (collabReference m uidx).Nodup := by
    apply List.Nodup.of_map (fun c => c.productId)
    rw [collabReference, List.map_filterMap]
    have hfun : (fun j => (if (m.matrix.getD uidx []).getD j 0 = 0 ∧
          ∃ su ∈ topSimilarUsers m uidx,
            0 < (m.matrix.getD su.userIndex []).getD j 0 then
          some (⟨m.productIds.getD j "", collabReferenceScore m uidx j,
            "collaborative"⟩ : Candidate)
        else none).map (fun c => c.productId)) =
        (fun j => if (m.matrix.getD uidx []).getD j 0 = 0 ∧
          ∃ su ∈ topSimilarUsers m uidx,
            0 < (m.matrix.getD su.userIndex []).getD j 0 then
          some (m.productIds.getD j "") else none) := by
      funext j
      by_cases h : (m.matrix.getD uidx []).getD j 0 = 0 ∧
          ∃ su ∈ topSimilarUsers m uidx,
            0 < (m.matrix.getD su.userIndex []).getD j 0
      · rw [if_pos h, if_pos h]
        rfl
      · rw [if_neg h, if_neg h]
        rfl
    rw [hfun, filterMap_ite_eq_filter_map]
    apply List.Nodup.sublist (List.Sublist.map _ (List.filter_sublist _))
    rw [map_getD_range]
    exact hnd
  rw [List.perm_ext_iff_of_nodup hnd1 hnd2]
  intro x
  constructor
  · intro hx
    obtain ⟨p, hpacc, rfl⟩ := List.mem_map.mp hx
    rw [hacc] at hpacc
    obtain ⟨hpkey, hpsum⟩ := hent p hpacc
    obtain ⟨su, hsu, j, hjlen, hc, hkey⟩ :=
      (mem_keys_collabContribs m uidx p.1).mp hpkey
    have hjp : j < m.productIds.length := by
      rw [← topSimilarUsers_row_length m uidx hwidth su hsu]
      exact hjlen
    rw [collabReference]
    apply List.mem_filterMap.mpr
    refine ⟨j, List.mem_range.mpr hjp, ?_⟩
    rw [if_pos ⟨hc.1, su, hsu, hc.2⟩]
    have hscore : p.2 = collabReferenceScore m uidx j := by
      rw [hpsum, ← hkey]
      exact sumScorePair_collabContribs m uidx hwidth hnd j hjp
    rw [hkey, hscore]
  · intro hx
    rw [collabReference] at hx
    obtain ⟨j, hjr, hfj⟩ := List.mem_filterMap.mp hx
    rw [List.mem_range] at hjr
    by_cases hcond : (m.matrix.getD uidx []).getD j 0 = 0 ∧
        ∃ su ∈ topSimilarUsers m uidx,
          0 < (m.matrix.getD su.userIndex []).getD j 0
    · rw [if_pos hcond] at hfj
      obtain ⟨h0, su0, hsu0, hpos⟩ := hcond
      have hkeymem : m.productIds.getD j "" ∈
          (collabContribs m uidx).map Prod.fst := by
        apply (mem_keys_collabContribs m uidx _).mpr
        refine ⟨su0, hsu0, j, ?_, ⟨h0, hpos⟩, rfl⟩
        rw [topSimilarUsers_row_length m uidx hwidth su0 hsu0]
        exact hjr
      obtain ⟨p, hpacc, hpk⟩ := hcomp _ hkeymem
      have hpsum := (hent p hpacc).2
      apply List.mem_map.mpr
      refine ⟨p, by rw [hacc]; exact hpacc, ?_⟩
      cases hfj
      have hscore : p.2 = collabReferenceScore m uidx j := by
        rw [hpsum, hpk]
        exact sumScorePair_collabContribs m uidx hwidth hnd j hjr
      rw [hpk, hscore]
    · rw [if_neg hcond] at hfj
      cases hfj

/-- Claim C2: `getCollaborativeRecommendations` matches the spec's
reference computation.  If the user id is absent from the matrix's user
ids the result is empty.  Otherwise the result is the first `limit`
entries of a list that is sorted by accumulated score descending and is a
permutation of the reference candidate set: every product whose target
cell is 0 and which some kept neighbor (similarity > 0.1, top 10 by
similarity) has interacted with, scored with the sum over those neighbors
of `neighbor_cell * neighbor_similarity`. -/
theorem getCollaborativeRecommendations_matches_reference
    (m : UserItemMatrix) (userId : String) (limit : ℕ)
    (hwidth : ∀ row ∈ m.matrix, row.length = m.productIds.length)
    (hnd : m.productIds.Nodup) :
    (userId ∉ m.userIds → getCollaborativeRecommendations m userId limit = []) ∧
    (∀ uidx, m.userIds.indexOf? userId = some uidx →
      ∃ full : List Candidate,
        List.Perm full (collabReference m uidx) ∧
        full.Pairwise (fun a b => b.score ≤ a.score) ∧
        getCollaborativeRecommendations m userId limit = full.take limit) := by
  constructor
  · intro hnot
    rw [getCollaborativeRecommendations, List.indexOf?_eq_none_iff.mpr]
    intro x hx
    simp only [beq_iff_eq]
    intro heq
    exact hnot (heq ▸ hx)
  · intro uidx hidx
    rw [getCollaborativeRecommendations, hidx]
    exact ⟨sortByScoreDesc Candidate.score
        ((collabAccum m uidx).map (fun p => ⟨p.1, p.2, "collaborative"⟩)),
      (sortByScoreDesc_perm Candidate.score _).trans
        (map_collabAccum_perm_reference m uidx hwidth hnd),
      sortByScoreDesc_sorted Candidate.score _, rfl⟩

/-- Witness for C2 at a concrete 2×2 matrix: user `"u1"` (row `[1, 0]`)
with neighbor `"u2"` (row `[1, 1]`). -/
theorem getCollaborativeRecommendations_matches_reference_witness :
    (∀ row ∈ (⟨[[1, 0], [1, 1]], ["u1", "u2"], ["P1", "P2"]⟩ :
        UserItemMatrix).matrix, row.length = 2) ∧
    (["P1", "P2"] : List String).Nodup ∧
    (∃ full : List Candidate,
      List.Perm full (collabReference
        ⟨[[1, 0], [1, 1]], ["u1", "u2"], ["P1", "P2"]⟩ 0) ∧
      full.Pairwise (fun a b => b.score ≤ a.score) ∧
      getCollaborativeRecommendations
        ⟨[[1, 0], [1, 1]], ["u1", "u2"], ["P1", "P2"]⟩ "u1" 5 =
        full.take 5) := by
  have hwidth : ∀ row ∈ (⟨[[1, 0], [1, 1]], ["u1", "u2"], ["P1", "P2"]⟩ :
      UserItemMatrix).matrix, row.length = 2 := by
    intro row hrow
    simp only [List.mem_cons, List.not_mem_nil, or_false] at hrow
    rcases hrow with rfl | rfl
    · rfl
    · rfl
  refine ⟨hwidth, by simp, ?_⟩
  exact (getCollaborativeRecommendations_matches_reference
    ⟨[[1, 0], [1, 1]], ["u1", "u2"], ["P1", "P2"]⟩ "u1" 5 hwidth (by simp)).2
    0 rfl

/-- The user document consumed by `getRecommendations`
(ChatbotService.js:752–754): recently-viewed product ids and the
preference profile. -/
structure UserData where
  recentlyViewed : List String
  prefs : UserPrefs

/-- Everything the surrounding system (database, tensor embedding index,
scheduler) supplies to one `getRecommendations` call.  `contentScores`
abstracts the tf.js embedding-similarity numbers of
`getContentBasedRecommendations` (ChatbotService.js:844–863);
`trendingProducts` and `fallbackProducts` are the DB query results, in
query-sort order; `pipelineFault` injects an exception thrown anywhere in
the main pipeline (a failed lookup, a tensor error, …);
`fallbackFails` makes the fallback query itself throw. -/
structure RecEnv where
  matrix : UserItemMatrix
  contentScores : List (String × ℝ)
  trendingProducts : List String
  fallbackProducts : List String
  fallbackFails : Bool
  pipelineFault : Bool
  user : Option UserData
  products : List ProductRec
  month : ℕ

/-- `getContentBasedRecommendations` (ChatbotService.js:844–863): score
every product embedding against the user embedding, sort descending,
take `limit`. -/
noncomputable def getContentBasedRecommendations (env : RecEnv) (limit : ℕ) :
    List Candidate :=
  (sortByScoreDesc Candidate.score
    (env.contentScores.map (fun p => ⟨p.1, p.2, "content-based"⟩))).take limit

/-- `getTrendingRecommendations` (ChatbotService.js:866–882): the
query's first `limit` products, each with flat score 0.8. -/
noncomputable def getTrendingRecommendations (env : RecEnv) (limit : ℕ) :
    List Candidate :=
  (env.trendingProducts.take limit).map (fun pid => ⟨pid, 0.8, "trending"⟩)

/-- `getFallbackRecommendations` (ChatbotService.js:1082–1098): featured
active products by views with flat score 0.5; its own `catch` returns an
empty list when the query fails. -/
noncomputable def getFallbackRecommendations (env : RecEnv) (limit : ℕ) :
    List Candidate :=
  if env.fallbackFails then []
  else (env.fallbackProducts.take limit).map (fun pid => ⟨pid, 0.5, "fallback"⟩)

/-- The body of the `try` block of `getRecommendations`
(ChatbotService.js:747–783): user lookup (`throw` when absent), the three
generators, the hybrid combine with weights 0.4/0.4/0.2, the
recently-viewed filter, the personalization boost and the final
truncation.  `.error` is any exception escaping the block. -/
noncomputable def getRecommendationsPipeline (env : RecEnv) (userId : String)
    (limit : ℕ) (excludeViewed : Bool) : Except String (List Boosted) :=
  if env.pipelineFault then .error "pipeline failure"
  else match env.user with
  | none => .error "User not found"
  | some user =>
    let collaborativeRecs := getCollaborativeRecommendations env.matrix userId
      (limit * 2)
    let contentBasedRecs := getContentBasedRecommendations env (limit * 2)
    let trendingRecs := getTrendingRecommendations env limit
    let combinedRecs := combineRecommendations
      [(collaborativeRecs, 0.4), (contentBasedRecs, 0.4), (trendingRecs, 0.2)]
    let filteredRecs := if excludeViewed then
        combinedRecs.filter (fun r => ¬ user.recentlyViewed.contains r.productId)
      else combinedRecs
    let personalizedRecs := applyPersonalizationBoost filteredRecs user.prefs
      env.products env.month
    .ok (personalizedRecs.take limit)

/-- `getRecommendations(userId, limit, excludeViewed)`
(ChatbotService.js:746–789): the `try/catch` wrapper — on any exception
the fallback generator's output is returned instead.  Fallback entries
carry `type: 'fallback'` and no boost field in the source; in this
unified output record that is a singleton source list and boost 1. -/
noncomputable def getRecommendations (env : RecEnv) (userId : String)
    (limit : ℕ) (excludeViewed : Bool) : List Boosted :=
  match getRecommendationsPipeline env userId limit excludeViewed with
  | .ok recs => recs
  | .error _ => (getFallbackRecommendations env limit).map
      (fun c => ⟨c.productId, c.score, [c.type], 1⟩)

lemma applyPersonalizationBoost_keys_perm (recs : List Combined)
    (user : UserPrefs) (products : List ProductRec) (month : ℕ) :
    List.Perm
      ((applyPersonalizationBoost recs user products month).map (·.productId))
      (recs.map (·.productId)) := by
  rw [applyPersonalizationBoost]
  apply ((sortByScoreDesc_perm Boosted.score _).map (·.productId)).trans
  rw [List.map_map]
  apply List.Perm.of_eq
  apply List.map_congr_left
  intro r _
  exact boostCandidate_productId user products month r

/-- Claim C5: the recommendation result contains no two candidates with
the same productId and has length at most the requested limit, on both
the normal path and the fallback path (the fallback DB query returns
distinct product documents, hence the Nodup hypothesis on the fallback
id list). -/
theorem getRecommendations_nodup_and_length_le (env : RecEnv)
    (userId : String) (limit : ℕ) (excludeViewed : Bool)
    (hfb : env.fallbackProducts.Nodup) :
    ((getRecommendations env userId limit excludeViewed).map
      (·.productId)).Nodup ∧
    (getRecommendations env userId limit excludeViewed).length ≤ limit := by
  have hid : ∀ (l : List String),
      ((l.map (fun pid => (⟨pid, 0.5, "fallback"⟩ : Candidate))).map
        (fun c => (⟨c.productId, c.score, [c.type], 1⟩ : Boosted))).map
        (·.productId) = l := by
    intro l
    induction l with
    | nil => rfl
    | cons x xs ih => simp only [List.map_cons, ih]
  rw [getRecommendations]
  cases hpipe : getRecommendationsPipeline env userId limit excludeViewed with
  | error e =>
    show (((getFallbackRecommendations env limit).map
        (fun c => (⟨c.productId, c.score, [c.type], 1⟩ : Boosted))).map
        (·.productId)).Nodup ∧
      ((getFallbackRecommendations env limit).map
        (fun c => (⟨c.productId, c.score, [c.type], 1⟩ : Boosted))).length ≤ limit
    rw [getFallbackRecommendations]
    by_cases hff : env.fallbackFails
    · rw [if_pos hff]
      exact ⟨by simp, by simp⟩
    · rw [if_neg hff]
      constructor
      · rw [hid (env.fallbackProducts.take limit)]
        exact List.Nodup.sublist (List.take_sublist limit env.fallbackProducts) hfb
      · rw [List.length_map, List.length_map]
        exact List.length_take_le limit env.fallbackProducts
  | ok recs =>
    rw [getRecommendationsPipeline] at hpipe
    by_cases hf : env.pipelineFault
    · rw [if_pos hf] at hpipe
      exact absurd hpipe (by simp)
    · rw [if_neg hf] at hpipe
      cases hu : env.user with
      | none =>
        rw [hu] at hpipe
        exact absurd hpipe (by simp)
      | some user =>
        rw [hu] at hpipe
        simp only [Except.ok.injEq] at hpipe
        subst hpipe
        set combined := combineRecommendations
          [(getCollaborativeRecommendations env.matrix userId (limit * 2), 0.4),
           (getContentBasedRecommendations env (limit * 2), 0.4),
           (getTrendingRecommendations env limit, 0.2)] with hcombined
        set filtered := if excludeViewed then
            combined.filter (fun r => ¬ user.recentlyViewed.contains r.productId)
          else combined with hfiltered
        have hfilsub : List.Sublist filtered combined := by
          rw [hfiltered]
          by_cases hev : excludeViewed
          · rw [if_pos hev]
            exact List.filter_sublist combined
          · rw [if_neg hev]
        have hfilnd : (filtered.map (·.productId)).Nodup :=
          List.Nodup.sublist (hfilsub.map (·.productId))
            (combineRecommendations_keys_nodup _)
        have hpersnd : ((applyPersonalizationBoost filtered user.prefs
            env.products env.month).map (·.productId)).Nodup :=
          (applyPersonalizationBoost_keys_perm filtered user.prefs
            env.products env.month).nodup_iff.mpr hfilnd
        constructor
        · show ((List.take limit (applyPersonalizationBoost filtered user.prefs
              env.products env.month)).map (·.productId)).Nodup
          exact List.Nodup.sublist
            ((List.take_sublist limit (applyPersonalizationBoost filtered
              user.prefs env.products env.month)).map
              (fun b : Boosted => b.productId)) hpersnd
        · show (List.take limit (applyPersonalizationBoost filtered user.prefs
              env.products env.month)).length ≤ limit
          exact List.length_take_le limit _

/-- Witness for C5: the fallback path of a concrete environment with one
featured product and an absent user. -/
theorem getRecommendations_nodup_and_length_le_witness :
    ((["F1"] : List String)).Nodup ∧
    ((getRecommendations ⟨⟨[], [], []⟩, [], [], ["F1"], false, false, none, [], 0⟩
      "u" 3 true).map (·.productId)).Nodup ∧
    (getRecommendations ⟨⟨[], [], []⟩, [], [], ["F1"], false, false, none, [], 0⟩
      "u" 3 true).length ≤ 3 := by
  have h := getRecommendations_nodup_and_length_le
    ⟨⟨[], [], []⟩, [], [], ["F1"], false, false, none, [], 0⟩ "u" 3 true
    (by simp)
  exact ⟨by simp, h.1, h.2⟩

/-- Counterexample to claim C6: an exception is raised inside the
pipeline (injected fault), and the store has no featured active products,
so the fallback list — and hence the returned list — is empty, not
non-empty as claimed. -/
theorem getRecommendations_fallback_can_be_empty :
    getRecommendationsPipeline ⟨⟨[], [], []⟩, [], [], [], false, true, none, [], 0⟩
      "u" 5 true = Except.error "pipeline failure" ∧
    getRecommendations ⟨⟨[], [], []⟩, [], [], [], false, true, none, [], 0⟩
      "u" 5 true = [] := by
  constructor
  · rfl
  · rfl

/-- Claim C6 amended: whenever the pipeline raises, `getRecommendations`
returns exactly the Fallback Generator's output (and on success it
returns the pipeline's value — no exception ever escapes the call);
the fallback output is non-empty provided the fallback query itself
succeeds, the limit is at least 1 and at least one featured active
product exists. -/
theorem getRecommendations_fallback_on_error (env : RecEnv) (userId : String)
    (limit : ℕ) (excludeViewed : Bool) :
    (∀ e, getRecommendationsPipeline env userId limit excludeViewed =
        Except.error e →
      getRecommendations env userId limit excludeViewed =
        (getFallbackRecommendations env limit).map
          (fun c => ⟨c.productId, c.score, [c.type], 1⟩)) ∧
    (∀ recs, getRecommendationsPipeline env userId limit excludeViewed =
        Except.ok recs →
      getRecommendations env userId limit excludeViewed = recs) ∧
    (∀ e, getRecommendationsPipeline env userId limit excludeViewed =
        Except.error e →
      env.fallbackFails = false → 1 ≤ limit → env.fallbackProducts ≠ [] →
      getRecommendations env userId limit excludeViewed ≠ []) := by
  refine ⟨?_, ?_, ?_⟩
  · intro e hpe
    rw [getRecommendations, hpe]
  · intro recs hpe
    rw [getRecommendations, hpe]
  · intro e hpe hff hlim hfbne
    rw [getRecommendations, hpe, getFallbackRecommendations, hff]
    simp only [Bool.false_eq_true, if_false]
    intro hnil
    have hlen := congrArg List.length hnil
    simp only [List.length_map, List.length_nil, List.length_take] at hlen
    have hfp : 0 < env.fallbackProducts.length := List.length_pos.mpr hfbne
    omega

/-- Witness for the amended C6: injected pipeline fault, one featured
product, limit 5 — the call returns the non-empty fallback list. -/
theorem getRecommendations_fallback_on_error_witness :
    getRecommendationsPipeline ⟨⟨[], [], []⟩, [], [], ["F1"], false, true, none, [], 0⟩
      "u" 5 true = Except.error "pipeline failure" ∧
    getRecommendations ⟨⟨[], [], []⟩, [], [], ["F1"], false, true, none, [], 0⟩
      "u" 5 true ≠ [] := by
  refine ⟨rfl, ?_⟩
  exact (getRecommendations_fallback_on_error
    ⟨⟨[], [], []⟩, [], [], ["F1"], false, true, none, [], 0⟩ "u" 5 true).2.2
    "pipeline failure" rfl rfl (by norm_num) (by simp)

/-- `encodeCategoryFeatures(category)` (ChatbotService.js:1020–1023):
the source returns `[Math.random(), Math.random(), Math.random()]`
(a placeholder).  The hidden RNG state consumed by `Math.random()` is
modelled as the explicit stream `rand`; the category argument is unused
by the source. -/
def encodeCategoryFeatures (rand : ℕ → ℝ) : List ℝ :=
  [rand 0, rand 1, rand 2]

/-- `encodeAttributeFeatures(attributes)` (ChatbotService.js:1025–1031):
normalized counts of colors, sizes and materials. -/
noncomputable def encodeAttributeFeatures (colors sizes materials : List String) : List ℝ :=
  [(colors.length : ℝ) / 10, (sizes.length : ℝ) / 10, (materials.length : ℝ) / 5]

/-- `encodeSeasonalFeatures(seasons)` (ChatbotService.js:1033–1042):
four indicator slots set to 1 for each recognized season. -/
def encodeSeasonalFeatures (seasons : List String) : List ℝ :=
  seasons.foldl (fun features season =>
    if season = "spring" then features.set 0 1
    else if season = "summer" then features.set 1 1
    else if season = "fall" then features.set 2 1
    else if season = "winter" then features.set 3 1
    else features) [0, 0, 0, 0]

/-- The stop-word list of `extractTextFeatures` (ChatbotService.js:1046). -/
def commonWords : List String :=
  ["the", "and", "or", "but", "in", "on", "at", "to", "for", "of", "with", "by"]

/-- `extractTextFeatures(text)` (ChatbotService.js:1044–1056): lowercase,
split on whitespace (modelled as a single-space split), count meaningful
words and quality / price vocabulary occurrences (the `\b…\b/gi` regexes
are modelled as matches over the lowercased tokens). -/
noncomputable def extractTextFeatures (text : String) : List ℝ :=
  let words := text.toLower.splitOn " "
  let meaningfulWords := words.filter
    (fun w => !commonWords.contains w && decide (w.length > 2))
  [(meaningfulWords.length : ℝ) / 100,
   ((words.filter (fun w =>
      (["premium", "luxury", "high-quality"] : List String).contains w)).length : ℝ) / 10,
   ((words.filter (fun w =>
      (["sale", "discount", "cheap", "affordable"] : List String).contains w)).length : ℝ) / 10]

/-- `createProductEmbedding(product)` (ChatbotService.js:656–687): price
tier, popularity, rating, category placeholder, attribute counts,
season indicators and text features, concatenated in source order.
(`tf.tensor1d` wraps the plain feature vector; the vector itself is the
model.) -/
noncomputable def createProductEmbedding (product : ProductRec)
    (rand : ℕ → ℝ) : List ℝ :=
  [min (product.price / 1000) 1]
  ++ [min (product.views / 10000) 1]
  ++ [product.averageRating / 5]
  ++ encodeCategoryFeatures rand
  ++ encodeAttributeFeatures product.colors product.sizes product.materials
  ++ encodeSeasonalFeatures product.seasons
  ++ extractTextFeatures (product.name ++ " " ++ product.description)

/-- The user record consumed by `createUserEmbedding`
(ChatbotService.js:707–743): price-range bounds, the six
personalization scores, behavioral aggregates, preferred category ids
and click-pattern click counts. -/
structure UserRecord where
  priceMin : ℝ
  priceMax : ℝ
  fashionStyle : ℝ
  priceConsciousness : ℝ
  brandLoyalty : ℝ
  trendFollower : ℝ
  qualityFocused : ℝ
  impulseBuyer : ℝ
  totalPurchases : ℝ
  totalSpent : ℝ
  averageOrderValue : ℝ
  prefCategories : List String
  timeOfDayClicks : List ℝ
  dayOfWeekClicks : List ℝ

/-- `encodeCategoryPreferences(categories)` (ChatbotService.js:1058–1061):
`[categories.length / 10, Math.random(), Math.random()]` — again a
placeholder consuming two RNG draws. -/
noncomputable def encodeCategoryPreferences (categories : List String) (rand : ℕ → ℝ) :
    List ℝ :=
  [(categories.length : ℝ) / 10, rand 0, rand 1]

/-- `encodeTimePatterns(clickPatterns)` (ChatbotService.js:1063–1072):
total clicks by time-of-day and day-of-week, each normalized by 100, or
0 for an empty pattern list. -/
noncomputable def encodeTimePatterns (timeOfDay dayOfWeek : List ℝ) : List ℝ :=
  [if timeOfDay.length > 0 then timeOfDay.sum / 100 else 0,
   if dayOfWeek.length > 0 then dayOfWeek.sum / 100 else 0]

/-- `createUserEmbedding(user)` (ChatbotService.js:707–743). -/
noncomputable def createUserEmbedding (user : UserRecord) (rand : ℕ → ℝ) :
    List ℝ :=
  [user.priceMin / 1000, user.priceMax / 1000]
  ++ [user.fashionStyle, user.priceConsciousness, user.brandLoyalty,
      user.trendFollower, user.qualityFocused, user.impulseBuyer]
  ++ [min (user.totalPurchases / 50) 1, min (user.totalSpent / 10000) 1,
      min (user.averageOrderValue / 500) 1]
  ++ encodeCategoryPreferences user.prefCategories rand
  ++ encodeTimePatterns user.timeOfDayClicks user.dayOfWeekClicks

/-- Counterexample to claim C8: the product encoder is not a pure
function of the record — `encodeCategoryFeatures` returns fresh
`Math.random()` draws, so two evaluations on the same record (here with
RNG states yielding 0 and 1) produce different vectors. -/
theorem createProductEmbedding_not_deterministic :
    createProductEmbedding ⟨"P1", "x", "y", 0, "c", "b", [], [], [], [], 0, 0⟩
      (fun _ => 0) ≠
    createProductEmbedding ⟨"P1", "x", "y", 0, "c", "b", [], [], [], [], 0, 0⟩
      (fun _ => 1) := by
  intro h
  have h3 := congrArg (fun l => l.getD 3 0) h
  simp only [createProductEmbedding, encodeCategoryFeatures,
    List.cons_append, List.nil_append, List.getD_cons_succ,
    List.getD_cons_zero] at h3
  norm_num at h3

/-- Claim C8 amended: the encoders are deterministic functions of the
input record *and* the `Math.random()` draws they consume: with equal
draws the outputs coincide, and every component outside the random
category-placeholder slots (positions 3–5 of the product vector,
positions 12–13 of the user vector) depends on the record alone. -/
theorem embeddings_deterministic_given_draws :
    (∀ (p : ProductRec) (r₁ r₂ : ℕ → ℝ),
      r₁ 0 = r₂ 0 → r₁ 1 = r₂ 1 → r₁ 2 = r₂ 2 →
      createProductEmbedding p r₁ = createProductEmbedding p r₂) ∧
    (∀ (p : ProductRec) (r₁ r₂ : ℕ → ℝ),
      (createProductEmbedding p r₁).take 3 = (createProductEmbedding p r₂).take 3 ∧
      (createProductEmbedding p r₁).drop 6 = (createProductEmbedding p r₂).drop 6) ∧
    (∀ (u : UserRecord) (r₁ r₂ : ℕ → ℝ),
      r₁ 0 = r₂ 0 → r₁ 1 = r₂ 1 →
      createUserEmbedding u r₁ = createUserEmbedding u r₂) ∧
    (∀ (u : UserRecord) (r₁ r₂ : ℕ → ℝ),
      (createUserEmbedding u r₁).take 12 = (createUserEmbedding u r₂).take 12 ∧
      (createUserEmbedding u r₁).drop 14 = (createUserEmbedding u r₂).drop 14) := by
  refine ⟨?_, ?_, ?_, ?_⟩
  · intro p r₁ r₂ h0 h1 h2
    simp only [createProductEmbedding, encodeCategoryFeatures, h0, h1, h2]
  · intro p r₁ r₂
    constructor
    · simp only [createProductEmbedding, encodeCategoryFeatures,
        List.cons_append, List.nil_append, List.take_succ_cons, List.take_zero]
    · simp only [createProductEmbedding, encodeCategoryFeatures,
        List.cons_append, List.nil_append, List.drop_succ_cons, List.drop_zero]
  · intro u r₁ r₂ h0 h1
    simp only [createUserEmbedding, encodeCategoryPreferences, h0, h1]
  · intro u r₁ r₂
    constructor
    · simp only [createUserEmbedding, encodeCategoryPreferences,
        List.cons_append, List.nil_append, List.take_succ_cons, List.take_zero]
    · simp only [createUserEmbedding, encodeCategoryPreferences,
        List.cons_append, List.nil_append, List.drop_succ_cons, List.drop_zero]

/-- Witness for the amended C8: two RNG streams that agree on the
consumed draws (but not beyond) produce identical embeddings on concrete
records. -/
theorem embeddings_deterministic_given_draws_witness :
    createProductEmbedding ⟨"P1", "x", "y", 0, "c", "b", [], [], [], [], 0, 0⟩
      (fun _ => 0.5) =
    createProductEmbedding ⟨"P1", "x", "y", 0, "c", "b", [], [], [], [], 0, 0⟩
      (fun n => if n < 3 then 0.5 else 9) ∧
    createUserEmbedding ⟨0, 0, 0, 0, 0, 0, 0, 0, 0, 0, 0, [], [], []⟩
      (fun _ => 0.5) =
    createUserEmbedding ⟨0, 0, 0, 0, 0, 0, 0, 0, 0, 0, 0, [], [], []⟩
      (fun n => if n < 2 then 0.5 else 9) := by
  constructor
  · exact embeddings_deterministic_given_draws.1 _ _ _
      (by norm_num) (by norm_num) (by norm_num)
  · exact embeddings_deterministic_given_draws.2.2.1 _ _ _
      (by norm_num) (by norm_num)

end ECommerce
